import Mathlib

/-!
# smartprompt-client: retrying refine-prompt client

A shallow embedding of `client/client.go`: the request builder
(`PromptRequest` and its JSON form), the retry loop of
`Client.RefinePromptWithOptions` with its exponential backoff, and the
wrapper `Client.RefinePrompt`.

Conventions of the embedding.

* `time.Duration` is an integer number of nanoseconds.
* A `float64` is a finite binary floating point value `mant * 2 ^ exp`;
  conversions and products round to 53 significant bits, ties to even, the
  way the hardware does.  NaN and the infinities are not represented.
* JSON is handled at the level of JSON values: the byte syntax produced and
  read by `encoding/json` belongs to the library, the field names and the
  `omitempty` options belong to this repository.
* A Go string that is valid UTF-8 is a Lean `String`.  Arbitrary Go strings
  are `GoString`s, and `Client.RefinePromptWithOptionsBytes` is the client on
  them; it agrees with `Client.RefinePromptWithOptions` on valid UTF-8.
* The network is a function from the index of the HTTP call and the request
  to what `http.Client.Post` returns; a run of the client returns its Go
  result together with the list of observable events (sleeps and posts).
-/

namespace SmartPrompt

/-! ## Durations and float64 -/

/-- Go `time.Duration`: a count of nanoseconds. -/
abbrev Duration := Int

/-- Go `time.Millisecond`. -/
def Millisecond : Duration := 1000000

/-- Go `time.Second`. -/
def Second : Duration := 1000000000

/-- A finite `float64` value, `mant * 2 ^ exp`.  The pair is not normalised:
several pairs denote the same number.  The values of Go's `float64` are the
pairs with `|mant| < 2 ^ 53` and an exponent in the binary64 range; the
operations below are defined on all pairs. -/
structure Float64 where
  mant : Int
  exp : Int
deriving DecidableEq, Repr

namespace Float64

/-- The rational number a float denotes. -/
def toRat (x : Float64) : ℚ := (x.mant : ℚ) * (2 : ℚ) ^ x.exp

/-- The float of a whole number that is small enough to be exact (`|k| < 2^53`). -/
def ofInt (k : Int) : Float64 := ⟨k, 0⟩

end Float64

/-- The position of the highest set bit, found by halving at most `fuel` times. -/
def log2Fuel : Nat → Nat → Nat
  | 0, _ => 0
  | fuel + 1, n => if n < 2 then 0 else log2Fuel fuel (n / 2) + 1

/-- The position of the highest set bit of `n` (the floor of its binary
logarithm; `0` for `n = 0`). -/
def ilog2 (n : Nat) : Nat := log2Fuel n n

/-- Round a natural number to 53 significant bits, ties to even (IEEE 754
round-to-nearest-even of a binary64 significand). -/
def round53 (n : Nat) : Nat :=
  if n < 2 ^ 53 then n
  else
    let s := ilog2 n - 52
    let q := n / 2 ^ s
    let r := n % 2 ^ s
    if 2 ^ (s - 1) < r ∨ (r = 2 ^ (s - 1) ∧ q % 2 = 1) then (q + 1) * 2 ^ s else q * 2 ^ s

/-- Go conversion `float64(d)` of an int64: nearest float, ties to even. -/
def float64OfDuration (d : Duration) : Float64 :=
  ⟨Int.sign d * (round53 d.natAbs : Int), 0⟩

/-- Go `x * y` on float64: the exact product rounded to 53 significant bits. -/
def Float64.mul (x y : Float64) : Float64 :=
  ⟨Int.sign (x.mant * y.mant) * (round53 (x.mant * y.mant).natAbs : Int), x.exp + y.exp⟩

/-- The whole part of a float, truncated toward zero. -/
def Float64.trunc (x : Float64) : Int :=
  if 0 ≤ x.exp then x.mant * 2 ^ x.exp.toNat
  else Int.sign x.mant * ((x.mant.natAbs / 2 ^ (-x.exp).toNat : Nat) : Int)

/-- Go conversion `time.Duration(x)` of a float64: truncation toward zero.
Outside the int64 range the Go specification leaves the result to the
implementation; the value taken here is the one amd64 produces. -/
def durationOfFloat64 (x : Float64) : Duration :=
  if -(2 : Int) ^ 63 ≤ x.trunc ∧ x.trunc < (2 : Int) ^ 63 then x.trunc else -(2 : Int) ^ 63

/-! ## Data model -/

abbrev DomainType := String
abbrev ExpertiseLevel := String
abbrev OutputFormat := String

def DomainArchitecture : DomainType := "architecture"
def DomainDevelopment : DomainType := "development"
def DomainInfrastructure : DomainType := "infrastructure"
def DomainSecurity : DomainType := "security"
def DomainGeneral : DomainType := "general"

def ExpertiseBeginner : ExpertiseLevel := "beginner"
def ExpertiseIntermediate : ExpertiseLevel := "intermediate"
def ExpertiseExpert : ExpertiseLevel := "expert"

def OutputFormatSimple : OutputFormat := "simple"
def OutputFormatDetailed : OutputFormat := "detailed"
def OutputFormatTutorial : OutputFormat := "tutorial"
def OutputFormatChecklist : OutputFormat := "checklist"

/-- Go `RetryConfig`. -/
structure RetryConfig where
  MaxRetries : Int
  RetryDelay : Duration
  MaxDelay : Duration
  Multiplier : Float64
deriving DecidableEq, Repr

/-- The part of `http.Client` the repository sets: its timeout. -/
structure HTTPClient where
  Timeout : Duration
deriving DecidableEq, Repr

/-- Go `Client`.  The `RetryConfig` pointer is taken to be non-nil. -/
structure Client where
  BaseURL : String
  HTTPClient : HTTPClient
  RetryConfig : RetryConfig
deriving DecidableEq, Repr

/-- Go `PromptRequest`; a nil pointer is `none`. -/
structure PromptRequest where
  LazyPrompt : String
  Domain : Option DomainType
  ExpertiseLevel : Option ExpertiseLevel
  OutputFormat : Option OutputFormat
  IncludeBestPractices : Option Bool
  IncludeExamples : Option Bool
deriving DecidableEq, Repr

/-- Go `PromptResponse`; a nil slice and an empty slice are both `[]`. -/
structure PromptResponse where
  RefinedPrompt : String
  DetectedTopics : List String
  RecommendedReferences : List String
deriving DecidableEq, Repr

/-- Go `DefaultRetryConfig`.  It is a package-level variable that nothing in
the repository assigns to: it is taken at its initial value. -/
def DefaultRetryConfig : RetryConfig :=
  { MaxRetries := 3
    RetryDelay := 100 * Millisecond
    MaxDelay := 2 * Second
    Multiplier := Float64.ofInt 2 }

/-- Go `NewClient`. -/
def NewClient (baseURL : String) (timeout : Duration) : Client :=
  { BaseURL := baseURL
    HTTPClient := { Timeout := timeout }
    RetryConfig := DefaultRetryConfig }

/-- Go `Client.WithRetryConfig`: the receiver with its retry configuration
replaced; the same value is what the method returns. -/
def Client.WithRetryConfig (c : Client) (config : SmartPrompt.RetryConfig) : Client :=
  { c with RetryConfig := config }

/-! ## JSON values and the wire format -/

/-- A JSON value.  Numbers are whole numbers: for the structs of this
repository every number is a type error, whatever its value. -/
inductive JSON where
  | null
  | bool (b : Bool)
  | num (n : Int)
  | str (s : String)
  | arr (xs : List JSON)
  | obj (kvs : List (String × JSON))
deriving Repr

/-- The value of the first member named `key` of a JSON object. -/
def JSON.field (key : String) : JSON → Option JSON
  | .obj kvs => (kvs.find? (fun kv => kv.1 == key)).map (fun kv => kv.2)
  | _ => none

/-- A member of a struct whose field is a pointer tagged `omitempty`: a nil
pointer contributes nothing, a non-nil pointer contributes the encoded value
it points to (also when that value is `false` or the empty string). -/
def omitemptyPtr {α : Type} (key : String) (enc : α → JSON) : Option α → List (String × JSON)
  | none => []
  | some a => [(key, enc a)]

/-- Go `json.Marshal` of a `PromptRequest` whose strings are valid UTF-8,
following the struct tags.  For this struct `Marshal` has no error case, so
the error branch after the call is dead.  `GoPromptRequest.Marshal` below is
`json.Marshal` on arbitrary Go strings. -/
def PromptRequest.Marshal (r : PromptRequest) : JSON :=
  .obj ([("lazy_prompt", JSON.str r.LazyPrompt)]
    ++ omitemptyPtr "domain" JSON.str r.Domain
    ++ omitemptyPtr "expertise_level" JSON.str r.ExpertiseLevel
    ++ omitemptyPtr "output_format" JSON.str r.OutputFormat
    ++ omitemptyPtr "include_best_practices" JSON.bool r.IncludeBestPractices
    ++ omitemptyPtr "include_examples" JSON.bool r.IncludeExamples)

/-- One step of reading a Go string the way `utf8.DecodeRuneInString` does:
the well-formed UTF-8 encoding of a character, or a single byte that is not
part of one. -/
inductive GoRune where
  | char (c : Char)
  | invalid (byte : Nat)
deriving DecidableEq, Repr

/-- A Go `string`: arbitrary bytes, given as the steps in which they are read
as UTF-8.  The strings that are valid UTF-8 are the lists without `invalid`,
and the empty string is the empty list. -/
abbrev GoString := List GoRune

/-- The Go string of a text: its UTF-8 encoding. -/
def GoString.ofString (s : String) : GoString := s.data.map GoRune.char

/-- Go `utf8.RuneError`, the replacement character U+FFFD. -/
def RuneError : Char := Char.ofNat 0xFFFD

/-- The text `encoding/json` writes for a Go string: the characters as they
are, and U+FFFD in place of every byte that is not valid UTF-8. -/
def GoString.toJSONText (s : GoString) : String :=
  String.mk (s.map (fun r => match r with
    | .char c => c
    | .invalid _ => RuneError))

/-- Go `PromptRequest` with its strings as Go strings. -/
structure GoPromptRequest where
  LazyPrompt : GoString
  Domain : Option GoString
  ExpertiseLevel : Option GoString
  OutputFormat : Option GoString
  IncludeBestPractices : Option Bool
  IncludeExamples : Option Bool
deriving DecidableEq, Repr

/-- Go `json.Marshal` of a `PromptRequest`: the strings are written as JSON
text, invalid bytes replaced, under the names and options of the struct tags. -/
def GoPromptRequest.Marshal (r : GoPromptRequest) : JSON :=
  PromptRequest.Marshal
    { LazyPrompt := r.LazyPrompt.toJSONText
      Domain := r.Domain.map GoString.toJSONText
      ExpertiseLevel := r.ExpertiseLevel.map GoString.toJSONText
      OutputFormat := r.OutputFormat.map GoString.toJSONText
      IncludeBestPractices := r.IncludeBestPractices
      IncludeExamples := r.IncludeExamples }

/-- Decoding a JSON value into a Go `string` field. -/
def decodeString (cur : String) : JSON → Except String String
  | .null => .ok cur
  | .str s => .ok s
  | _ => .error "json: cannot unmarshal into Go value of type string"

/-- Decoding a JSON value into a Go `*string` field. -/
def decodeStringPtr : JSON → Except String (Option String)
  | .null => .ok none
  | .str s => .ok (some s)
  | _ => .error "json: cannot unmarshal into Go value of type string"

/-- Decoding a JSON value into a Go `*bool` field. -/
def decodeBoolPtr : JSON → Except String (Option Bool)
  | .null => .ok none
  | .bool b => .ok (some b)
  | _ => .error "json: cannot unmarshal into Go value of type bool"

/-- A Go `[]string` field while `encoding/json` decodes into it: the elements
within its length, and the elements an earlier, longer value left in its
backing array beyond the length. -/
structure StringSlice where
  elems : List String
  spare : List String
deriving DecidableEq, Repr

/-- Decoding the elements of a JSON array into a backing array, from its
start: each JSON value is decoded into the element that is already there
(the empty string beyond the end of the backing array), so that a `null`
keeps what was there. -/
def decodeStrings (backing : List String) : List JSON → Except String (List String)
  | [] => .ok []
  | x :: xs => do
    let s ← decodeString (backing.headD "") x
    let rest ← decodeStrings backing.tail xs
    pure (s :: rest)

/-- Decoding a JSON value into a Go `[]string` field that holds `cur`: `null`
makes it nil, the empty array a fresh empty slice, and any other array is
decoded element by element into the backing array of `cur`, whose length
becomes the number of elements. -/
def decodeStringSlice (cur : StringSlice) : JSON → Except String StringSlice
  | .null => .ok ⟨[], []⟩
  | .arr [] => .ok ⟨[], []⟩
  | .arr xs =>
    (decodeStrings (cur.elems ++ cur.spare) xs).map
      (fun ys => ⟨ys, (cur.elems ++ cur.spare).drop xs.length⟩)
  | _ => .error "json: cannot unmarshal into Go value of type []string"

/-- The letter a rune counts as when `encoding/json` compares a member name
with a struct tag: ASCII letters ignore case, and the long s (U+017F) and the
Kelvin sign (U+212A) count as `S` and `K`. -/
def foldRune (c : Char) : Char :=
  if c = Char.ofNat 0x17F then 'S' else if c = Char.ofNat 0x212A then 'K' else c.toUpper

/-- A member name folded rune by rune. -/
def foldName (s : String) : String := String.mk (s.data.map foldRune)

/-- Whether `encoding/json` takes the object member `key` for the struct
field tagged `tag` (an exact match, or a match up to case). -/
def keyMatches (key tag : String) : Bool := foldName key == foldName tag

/-- The zero `PromptRequest`. -/
def PromptRequest.zero : PromptRequest :=
  { LazyPrompt := "", Domain := none, ExpertiseLevel := none, OutputFormat := none,
    IncludeBestPractices := none, IncludeExamples := none }

/-- One object member decoded into a `PromptRequest`; members with other
names are ignored. -/
def PromptRequest.setField (r : PromptRequest) (key : String) (v : JSON) :
    Except String PromptRequest :=
  if keyMatches key "lazy_prompt" then (decodeString r.LazyPrompt v).map (fun s => { r with LazyPrompt := s })
  else if keyMatches key "domain" then (decodeStringPtr v).map (fun s => { r with Domain := s })
  else if keyMatches key "expertise_level" then
    (decodeStringPtr v).map (fun s => { r with ExpertiseLevel := s })
  else if keyMatches key "output_format" then (decodeStringPtr v).map (fun s => { r with OutputFormat := s })
  else if keyMatches key "include_best_practices" then
    (decodeBoolPtr v).map (fun b => { r with IncludeBestPractices := b })
  else if keyMatches key "include_examples" then
    (decodeBoolPtr v).map (fun b => { r with IncludeExamples := b })
  else .ok r

/-- The members of an object decoded into a `PromptRequest`, in order. -/
def PromptRequest.setFields (r : PromptRequest) : List (String × JSON) → Except String PromptRequest
  | [] => .ok r
  | (k, v) :: kvs => do
    let r1 ← r.setField k v
    PromptRequest.setFields r1 kvs

/-- Go `json.Unmarshal` into a zero `PromptRequest`, as the test servers do
with the request body. -/
def PromptRequest.Unmarshal : JSON → Except String PromptRequest
  | .null => .ok PromptRequest.zero
  | .obj kvs => PromptRequest.zero.setFields kvs
  | _ => .error "json: cannot unmarshal into Go value of type client.PromptRequest"

/-- The zero `PromptResponse`. -/
def PromptResponse.zero : PromptResponse :=
  { RefinedPrompt := "", DetectedTopics := [], RecommendedReferences := [] }

/-- A `PromptResponse` while it is decoded into: its slices with their
backing arrays. -/
structure ResponseDecoding where
  RefinedPrompt : String
  DetectedTopics : StringSlice
  RecommendedReferences : StringSlice
deriving DecidableEq, Repr

/-- The zero `PromptResponse` as decoding starts: `var result PromptResponse`. -/
def ResponseDecoding.zero : ResponseDecoding :=
  { RefinedPrompt := "", DetectedTopics := ⟨[], []⟩, RecommendedReferences := ⟨[], []⟩ }

/-- The `PromptResponse` that decoding leaves. -/
def ResponseDecoding.result (r : ResponseDecoding) : PromptResponse :=
  { RefinedPrompt := r.RefinedPrompt
    DetectedTopics := r.DetectedTopics.elems
    RecommendedReferences := r.RecommendedReferences.elems }

/-- One object member decoded into a `PromptResponse`; members with other
names are ignored. -/
def ResponseDecoding.setField (r : ResponseDecoding) (key : String) (v : JSON) :
    Except String ResponseDecoding :=
  if keyMatches key "refined_prompt" then
    (decodeString r.RefinedPrompt v).map (fun s => { r with RefinedPrompt := s })
  else if keyMatches key "detected_topics" then
    (decodeStringSlice r.DetectedTopics v).map (fun s => { r with DetectedTopics := s })
  else if keyMatches key "recommended_references" then
    (decodeStringSlice r.RecommendedReferences v).map
      (fun s => { r with RecommendedReferences := s })
  else .ok r

/-- The members of an object decoded into a `PromptResponse`, in order. -/
def ResponseDecoding.setFields (r : ResponseDecoding) :
    List (String × JSON) → Except String ResponseDecoding
  | [] => .ok r
  | (k, v) :: kvs => do
    let r1 ← r.setField k v
    ResponseDecoding.setFields r1 kvs

/-- Go `json.NewDecoder(body).Decode(&result)` for a `PromptResponse`.  The
body is `none` when the stream does not start with a JSON value (empty or
malformed bytes). -/
def PromptResponse.Decode : Option JSON → Except String PromptResponse
  | none => .error "invalid character or unexpected end of JSON input"
  | some .null => .ok PromptResponse.zero
  | some (.obj kvs) => (ResponseDecoding.zero.setFields kvs).map ResponseDecoding.result
  | some _ => .error "json: cannot unmarshal into Go value of type client.PromptResponse"

/-! ## The retrying transport -/

/-- An error recorded in `lastErr` by one attempt of the retry loop. -/
inductive AttemptError where
  /-- Go `"error making request (attempt %d): %w"`. -/
  | request (attempt : Nat) (cause : String)
  /-- Go `"API returned non-200 status: %d (attempt %d)"`. -/
  | non200 (status : Int) (attempt : Nat)
deriving DecidableEq, Repr

/-- The errors `RefinePromptWithOptions` returns. -/
inductive Error where
  /-- Go `"lazy prompt cannot be empty"`. -/
  | emptyPrompt
  /-- Go `"error decoding response: %w"`. -/
  | decoding (cause : String)
  /-- Go `"API returned client error status: %d"`. -/
  | clientStatus (status : Int)
  /-- Go `"max retries exceeded: %w"`, wrapping `lastErr` (`none` is Go nil). -/
  | maxRetriesExceeded (lastErr : Option AttemptError)
deriving DecidableEq, Repr

/-- What `http.Client.Post` hands back when it returns no error. -/
structure Response where
  StatusCode : Int
  Body : Option JSON

/-- What `http.Client.Post` returns: a transport error or a response. -/
inductive PostResult where
  | error (cause : String)
  | response (resp : Response)

/-- The world outside the client: what the `n`-th `Post` of a call (counted
from 0) returns for the given URL, content type and body. -/
abbrev Network := Nat → String → String → JSON → PostResult

/-- An observable effect of a call. -/
inductive Event where
  | sleep (d : Duration)
  | post (url : String) (contentType : String) (body : JSON)

/-- Whether an event is an HTTP attempt. -/
def Event.isPost : Event → Bool
  | .post _ _ _ => true
  | .sleep _ => false

/-- The delays slept in a trace, in order. -/
def sleeps : List Event → List Duration
  | [] => []
  | .sleep d :: es => d :: sleeps es
  | .post _ _ _ :: es => sleeps es

/-- The number of HTTP attempts in a trace. -/
def attempts (es : List Event) : Nat := (es.filter Event.isPost).length

/-- The Go result pair `(*PromptResponse, error)`. -/
abbrev Result := Option PromptResponse × Option Error

/-- Lines 113-116: the delay for the next retry, from the one just slept. -/
def nextDelay (cfg : RetryConfig) (currentDelay : Duration) : Duration :=
  let d := durationOfFloat64 ((float64OfDuration currentDelay).mul cfg.Multiplier)
  if d > cfg.MaxDelay then cfg.MaxDelay else d

/-- The events of an iteration put in front of what follows it. -/
def after (es : List Event) (r : Result × List Event) : Result × List Event :=
  (r.1, es ++ r.2)

/-- The `for attempt := 0; attempt <= MaxRetries; attempt++` loop.  The first
argument is the number of iterations for which the loop condition still
holds, `MaxRetries + 1 - attempt` (0 when that is negative); the others are
the loop variables `attempt`, `currentDelay` and `lastErr`.  The counter is a
natural number: the wrap-around of Go's `int` after `2 ^ 63 - 1` iterations
is not modelled. -/
def retryLoop (c : Client) (net : Network) (jsonData : JSON) :
    Nat → Nat → Duration → Option AttemptError → Result × List Event
  | 0, _, _, lastErr => ((none, some (Error.maxRetriesExceeded lastErr)), [])
  | k + 1, attempt, currentDelay, _ =>
    let slept := if attempt > 0 then [Event.sleep currentDelay] else []
    let currentDelay := if attempt > 0 then nextDelay c.RetryConfig currentDelay else currentDelay
    let url := c.BaseURL ++ "/refine-prompt"
    let events := slept ++ [Event.post url "application/json" jsonData]
    match net attempt url "application/json" jsonData with
    | .error cause =>
      after events
        (retryLoop c net jsonData k (attempt + 1) currentDelay
          (some (AttemptError.request (attempt + 1) cause)))
    | .response resp =>
      if resp.StatusCode = 200 then
        match PromptResponse.Decode resp.Body with
        | .error cause => ((none, some (Error.decoding cause)), events)
        | .ok result => ((some result, none), events)
      else if resp.StatusCode ≥ 400 ∧ resp.StatusCode < 500 then
        ((none, some (Error.clientStatus resp.StatusCode)), events)
      else
        after events
          (retryLoop c net jsonData k (attempt + 1) currentDelay
            (some (AttemptError.non200 resp.StatusCode (attempt + 1))))

/-- Go `Client.RefinePromptWithOptions`, run against a network, for a prompt
and options that are valid UTF-8: the result pair and the trace of sleeps and
posts.  `Client.RefinePromptWithOptionsBytes` below is the same function on
arbitrary Go strings, and agrees with this one on valid UTF-8
(`refineBytes_ofString`). -/
def Client.RefinePromptWithOptions (c : Client) (net : Network) (lazyPrompt : String)
    (domain : Option DomainType) (expertiseLevel : Option ExpertiseLevel)
    (outputFormat : Option OutputFormat) (includeBestPractices includeExamples : Option Bool) :
    Result × List Event :=
  if lazyPrompt = "" then ((none, some Error.emptyPrompt), [])
  else
    let reqBody : PromptRequest :=
      { LazyPrompt := lazyPrompt
        Domain := domain
        ExpertiseLevel := expertiseLevel
        OutputFormat := outputFormat
        IncludeBestPractices := includeBestPractices
        IncludeExamples := includeExamples }
    let jsonData := reqBody.Marshal
    retryLoop c net jsonData (c.RetryConfig.MaxRetries + 1).toNat 0 c.RetryConfig.RetryDelay none

/-- Go `Client.RefinePromptWithOptions` on arbitrary Go strings, run against a
network: the empty-prompt guard compares bytes, and `json.Marshal` writes the
strings as JSON text. -/
def Client.RefinePromptWithOptionsBytes (c : Client) (net : Network) (lazyPrompt : GoString)
    (domain expertiseLevel outputFormat : Option GoString)
    (includeBestPractices includeExamples : Option Bool) : Result × List Event :=
  if lazyPrompt = [] then ((none, some Error.emptyPrompt), [])
  else
    let reqBody : GoPromptRequest :=
      { LazyPrompt := lazyPrompt
        Domain := domain
        ExpertiseLevel := expertiseLevel
        OutputFormat := outputFormat
        IncludeBestPractices := includeBestPractices
        IncludeExamples := includeExamples }
    let jsonData := reqBody.Marshal
    retryLoop c net jsonData (c.RetryConfig.MaxRetries + 1).toNat 0 c.RetryConfig.RetryDelay none

/-- Go `Client.RefinePrompt`: the string and error it returns, and the trace.
Go dereferences the response when the error is nil; a result with neither
response nor error, where that would panic, is never returned by
`RefinePromptWithOptions` (`result_shape` below), and the value given for it
here is the empty string. -/
def Client.RefinePrompt (c : Client) (net : Network) (lazyPrompt : String) :
    (String × Option Error) × List Event :=
  let r := c.RefinePromptWithOptions net lazyPrompt none none none none none
  match r.1.2 with
  | some err => (("", some err), r.2)
  | none => (((r.1.1.map (fun resp => resp.RefinedPrompt)).getD "", none), r.2)

/-! ## Vocabulary of the properties -/

/-- A status that is neither success nor a client error: the loop goes on. -/
def retryableStatus (s : Int) : Prop := s ≠ 200 ∧ ¬ (s ≥ 400 ∧ s < 500)

instance (s : Int) : Decidable (retryableStatus s) := by
  unfold retryableStatus; infer_instance

/-- An attempt after which the loop goes on: a transport error or a
retryable status. -/
def PostResult.retryable : PostResult → Prop
  | .error _ => True
  | .response resp => retryableStatus resp.StatusCode

/-- What attempt number `n` (counted from 0) of a call with the given
request receives from the network. -/
def Client.received (c : Client) (net : Network) (reqBody : PromptRequest) (n : Nat) :
    PostResult :=
  net n (c.BaseURL ++ "/refine-prompt") "application/json" reqBody.Marshal

/-- The delay slept immediately before the `n`-th post of a trace: `prev` is
the delay of the sleep just seen, if the last event was a sleep. -/
def delayBeforeAux : Option Duration → List Event → Nat → Option Duration
  | _, [], _ => none
  | _, .sleep d :: es, n => delayBeforeAux (some d) es n
  | prev, .post _ _ _ :: _, 0 => prev
  | _, .post _ _ _ :: es, n + 1 => delayBeforeAux none es n

/-- The delay slept immediately before attempt `n` (counted from 0) in a
trace; `none` when nothing is slept there or the attempt is not in the trace. -/
def delayBefore (es : List Event) (n : Nat) : Option Duration := delayBeforeAux none es n

/-- The value of the loop variable `currentDelay` when it is slept for the
`(i+1)`-th time: it starts at `RetryDelay` and is updated after each sleep. -/
def delayAt (cfg : RetryConfig) : Nat → Duration
  | 0 => cfg.RetryDelay
  | i + 1 => nextDelay cfg (delayAt cfg i)

/-- The events of one iteration: the sleep (from the second attempt on) and the post. -/
def iterationEvents (c : Client) (jsonData : JSON) (attempt : Nat) (currentDelay : Duration) :
    List Event :=
  (if attempt > 0 then [Event.sleep currentDelay] else [])
    ++ [Event.post (c.BaseURL ++ "/refine-prompt") "application/json" jsonData]

/-- The value of `currentDelay` after the update at the head of an iteration. -/
def delayAfterHead (c : Client) (attempt : Nat) (currentDelay : Duration) : Duration :=
  if attempt > 0 then nextDelay c.RetryConfig currentDelay else currentDelay

/-- The error an attempt that is retried leaves in `lastErr`. -/
def attemptError (r : PostResult) (attemptNo : Nat) : AttemptError :=
  match r with
  | .error cause => AttemptError.request attemptNo cause
  | .response resp => AttemptError.non200 resp.StatusCode attemptNo

/-- The truncated float product `x * (a * 2^e)` of natural numbers: the
significand product rounded to 53 bits, scaled, and cut to a whole number. -/
def truncProd (x a : Nat) (e : Int) : Nat :=
  if 0 ≤ e then round53 (x * a) * 2 ^ e.toNat else round53 (x * a) / 2 ^ (-e).toNat

/-- The specification of `refine(prompt)`: call `refineWithOptions` with all
five optional parameters absent, then keep only `refinedPrompt`; an error is
handed on with the empty string. -/
def Client.refineSpec (c : Client) (net : Network) (prompt : String) :
    (String × Option Error) × List Event :=
  match c.RefinePromptWithOptions net prompt none none none none none with
  | ((some r, none), t) => ((r.RefinedPrompt, none), t)
  | ((_, some e), t) => (("", some e), t)
  | ((none, none), t) => (("", none), t)

/-- Memory holding `Client` structs: what is stored at each address, `none`
where no client lives (the nil pointer among them). -/
abbrev Heap := Nat → Option Client

/-- Go `(c *Client) WithRetryConfig(config)` on the pointer receiver `c`: the
struct at address `c` gets the new retry configuration in place, and the
address `c` itself is returned.  A nil receiver panics (`none`). -/
def Heap.WithRetryConfig (h : Heap) (c : Nat) (config : RetryConfig) : Option (Heap × Nat) :=
  match h c with
  | none => none
  | some client => some (Function.update h c (some (client.WithRetryConfig config)), c)

/-- The posts of a trace, in order. -/
def posts (es : List Event) : List Event := es.filter Event.isPost

/-! ## Concrete clients and servers used as instances -/

/-- A server that answers every request with the given status and an empty body. -/
def alwaysStatus (status : Int) : Network := fun _ _ _ _ => .response ⟨status, none⟩

/-- The client of `TestRefinePromptMaxRetriesExceeded`. -/
def retryTestClient : Client :=
  (NewClient "http://127.0.0.1:8080" (1 * Second)).WithRetryConfig
    { MaxRetries := 2, RetryDelay := 10 * Millisecond, MaxDelay := 50 * Millisecond,
      Multiplier := Float64.ofInt 2 }

/-- The client of the other tests: `NewClient(server.URL, 1*time.Second)`. -/
def testClient : Client := NewClient "http://127.0.0.1:8080" (1 * Second)

/-- The handler of `TestRefinePromptWithOptions`: it decodes the request and
answers 200 with the prompt prefixed by `Enhanced: `, two topics and two
references. -/
def enhancingServer : Network := fun _ _ _ body =>
  match PromptRequest.Unmarshal body with
  | .error _ => .response ⟨500, none⟩
  | .ok req =>
    .response ⟨200, some (.obj
      [("refined_prompt", .str ("Enhanced: " ++ req.LazyPrompt)),
       ("detected_topics", .arr [.str "Topic1", .str "Topic2"]),
       ("recommended_references", .arr [.str "Ref1", .str "Ref2"])])⟩

/-- A network whose first call fails at the transport level and whose server
then answers 200 with bytes that are not JSON. -/
def garbageServer : Network := fun n _ _ _ =>
  if n = 0 then .error "connection refused" else .response ⟨200, none⟩

/-- A client with the default delays (100ms, doubling, capped at 2s) and a
budget of 7 retries, so that the cap is reached. -/
def backoffClient : Client :=
  (NewClient "http://127.0.0.1:8080" (1 * Second)).WithRetryConfig
    { MaxRetries := 7, RetryDelay := 100 * Millisecond, MaxDelay := 2 * Second,
      Multiplier := Float64.ofInt 2 }

/-- A client whose first delay (10s) is above its cap (2s). -/
def slowStartClient : Client :=
  (NewClient "http://127.0.0.1:8080" (1 * Second)).WithRetryConfig
    { MaxRetries := 2, RetryDelay := 10 * Second, MaxDelay := 2 * Second,
      Multiplier := Float64.ofInt 2 }

/-- A client with a first delay of 1ns and the multiplier 1.5. -/
def fractionalClient : Client :=
  (NewClient "http://127.0.0.1:8080" (1 * Second)).WithRetryConfig
    { MaxRetries := 2, RetryDelay := 1, MaxDelay := 2 * Second, Multiplier := ⟨3, -1⟩ }

/-- A client with a first delay of `2^53 + 1` ns, which float64 cannot
represent, the multiplier 1.0 and a cap far above. -/
def hugeDelayClient : Client :=
  (NewClient "http://127.0.0.1:8080" (1 * Second)).WithRetryConfig
    { MaxRetries := 2, RetryDelay := 2 ^ 53 + 1, MaxDelay := 2 ^ 62, Multiplier := Float64.ofInt 1 }

/-- A client with a negative first delay. -/
def negativeDelayClient : Client :=
  (NewClient "http://127.0.0.1:8080" (1 * Second)).WithRetryConfig
    { MaxRetries := 2, RetryDelay := -(100 * Millisecond), MaxDelay := 2 * Second,
      Multiplier := Float64.ofInt 2 }

/-- The handler of `TestRefinePrompt`: it decodes the request and answers 200
with the prompt after `Simple: ` and no topics. -/
def simpleServer : Network := fun _ _ _ body =>
  match PromptRequest.Unmarshal body with
  | .error _ => .response ⟨500, none⟩
  | .ok req =>
    .response ⟨200, some (.obj
      [("refined_prompt", .str ("Simple: " ++ req.LazyPrompt)),
       ("detected_topics", .arr [])])⟩

/-- A network that fails at the transport level on the first call and whose
server then answers 503, 301 and 201. -/
def flakyServer : Network := fun n _ _ _ =>
  if n = 0 then .error "timeout"
  else if n = 1 then .response ⟨503, none⟩
  else if n = 2 then .response ⟨301, none⟩
  else .response ⟨201, none⟩

/-- A client whose retry budget is negative. -/
def noBudgetClient : Client :=
  (NewClient "http://127.0.0.1:8080" (1 * Second)).WithRetryConfig
    { MaxRetries := -1, RetryDelay := 100 * Millisecond, MaxDelay := 2 * Second,
      Multiplier := Float64.ofInt 2 }

/-- A memory with the client of the tests at address 1 and another client at
address 2. -/
def testHeap : Heap := fun a =>
  if a = 1 then some testClient else if a = 2 then some retryTestClient else none

/-! ## Lemmas on traces and on the retry loop -/

theorem attempts_nil : attempts [] = 0 := rfl

theorem attempts_append (es fs : List Event) : attempts (es ++ fs) = attempts es + attempts fs := by
  simp [attempts, List.filter_append]

theorem attempts_after (es : List Event) (r : Result × List Event) :
    attempts (after es r).2 = attempts es + attempts r.2 := by
  simp [after, attempts_append]

theorem after_fst (es : List Event) (r : Result × List Event) : (after es r).1 = r.1 := rfl

theorem after_after (es fs : List Event) (r : Result × List Event) :
    after es (after fs r) = after (es ++ fs) r := by
  simp [after, List.append_assoc]

theorem attempts_iterationEvents (c : Client) (jsonData : JSON) (a : Nat) (d : Duration) :
    attempts (iterationEvents c jsonData a d) = 1 := by
  unfold iterationEvents
  split <;> simp [attempts, Event.isPost]

/-- An iteration whose attempt is retryable continues with the next one. -/
theorem retryLoop_retry (c : Client) (net : Network) (jsonData : JSON) (k a : Nat)
    (d : Duration) (e : Option AttemptError)
    (h : (net a (c.BaseURL ++ "/refine-prompt") "application/json" jsonData).retryable) :
    retryLoop c net jsonData (k + 1) a d e =
      after (iterationEvents c jsonData a d)
        (retryLoop c net jsonData k (a + 1) (delayAfterHead c a d)
          (some (attemptError (net a (c.BaseURL ++ "/refine-prompt") "application/json" jsonData)
            (a + 1)))) := by
  rw [retryLoop]
  cases hn : net a (c.BaseURL ++ "/refine-prompt") "application/json" jsonData with
  | error cause => simp [iterationEvents, delayAfterHead, attemptError]
  | response resp =>
    rw [hn] at h
    simp only [PostResult.retryable, retryableStatus] at h
    simp [iterationEvents, delayAfterHead, attemptError, h.1, h.2]

/-- An iteration whose attempt receives 200 ends the call with the decoded body. -/
theorem retryLoop_ok (c : Client) (net : Network) (jsonData : JSON) (k a : Nat)
    (d : Duration) (e : Option AttemptError) (resp : Response)
    (h : net a (c.BaseURL ++ "/refine-prompt") "application/json" jsonData = .response resp)
    (hs : resp.StatusCode = 200) :
    retryLoop c net jsonData (k + 1) a d e =
      (match PromptResponse.Decode resp.Body with
        | .error cause => ((none, some (Error.decoding cause)), iterationEvents c jsonData a d)
        | .ok result => ((some result, none), iterationEvents c jsonData a d)) := by
  rw [retryLoop]
  simp [h, hs, iterationEvents]

/-- An iteration whose attempt receives a 4xx status ends the call. -/
theorem retryLoop_clientError (c : Client) (net : Network) (jsonData : JSON) (k a : Nat)
    (d : Duration) (e : Option AttemptError) (resp : Response)
    (h : net a (c.BaseURL ++ "/refine-prompt") "application/json" jsonData = .response resp)
    (hs : resp.StatusCode ≥ 400 ∧ resp.StatusCode < 500) :
    retryLoop c net jsonData (k + 1) a d e =
      ((none, some (Error.clientStatus resp.StatusCode)), iterationEvents c jsonData a d) := by
  rw [retryLoop]
  have h200 : resp.StatusCode ≠ 200 := by omega
  simp [h, hs.1, hs.2, h200, iterationEvents]

/-- After `n` retryable attempts the loop is `n` iterations further. -/
theorem retryLoop_skip (c : Client) (net : Network) (jsonData : JSON) (n : Nat) :
    ∀ (k a : Nat) (d : Duration) (e : Option AttemptError),
      (∀ j, j < n →
        (net (a + j) (c.BaseURL ++ "/refine-prompt") "application/json" jsonData).retryable) →
      ∃ es d1 e1, retryLoop c net jsonData (n + k) a d e
          = after es (retryLoop c net jsonData k (a + n) d1 e1) ∧ attempts es = n := by
  induction n with
  | zero =>
    intro k a d e _
    exact ⟨[], d, e, by simp [after], rfl⟩
  | succ n ih =>
    intro k a d e h
    have h0 := h 0 (Nat.succ_pos n)
    rw [Nat.add_zero] at h0
    obtain ⟨es, d1, e1, hes, hat⟩ := ih k (a + 1) (delayAfterHead c a d)
      (some (attemptError (net a (c.BaseURL ++ "/refine-prompt") "application/json" jsonData)
        (a + 1)))
      (fun j hj => by
        have := h (j + 1) (Nat.succ_lt_succ hj)
        rwa [show a + (j + 1) = a + 1 + j by omega] at this)
    refine ⟨iterationEvents c jsonData a d ++ es, d1, e1, ?_, ?_⟩
    · rw [show n + 1 + k = (n + k) + 1 by omega, retryLoop_retry c net jsonData (n + k) a d e h0,
        hes, after_after, show a + 1 + n = a + (n + 1) by omega]
    · rw [attempts_append, attempts_iterationEvents, hat]; omega

/-- A call with a non-empty prompt is the retry loop on the marshalled request. -/
theorem run_eq_retryLoop (c : Client) (net : Network) (p : String)
    (dom : Option DomainType) (lvl : Option ExpertiseLevel) (fmt : Option OutputFormat)
    (best ex : Option Bool) (hp : p ≠ "") :
    c.RefinePromptWithOptions net p dom lvl fmt best ex =
      retryLoop c net (PromptRequest.Marshal ⟨p, dom, lvl, fmt, best, ex⟩)
        (c.RetryConfig.MaxRetries + 1).toNat 0 c.RetryConfig.RetryDelay none := by
  simp [Client.RefinePromptWithOptions, hp]

/-- When the attempts before attempt `k` are all retried and `k` is within
the budget, the call is `k` iterations followed by the loop at attempt `k`. -/
theorem run_reaches (c : Client) (net : Network) (p : String)
    (dom : Option DomainType) (lvl : Option ExpertiseLevel) (fmt : Option OutputFormat)
    (best ex : Option Bool) (k : Nat) (hp : p ≠ "") (hk : (k : Int) ≤ c.RetryConfig.MaxRetries)
    (hprev : ∀ j, j < k → (c.received net ⟨p, dom, lvl, fmt, best, ex⟩ j).retryable) :
    ∃ K es d1 e1, c.RefinePromptWithOptions net p dom lvl fmt best ex
        = after es (retryLoop c net (PromptRequest.Marshal ⟨p, dom, lvl, fmt, best, ex⟩)
            (K + 1) k d1 e1) ∧ attempts es = k := by
  obtain ⟨K, hK⟩ : ∃ K, (c.RetryConfig.MaxRetries + 1).toNat = k + (K + 1) :=
    ⟨(c.RetryConfig.MaxRetries + 1).toNat - k - 1, by omega⟩
  obtain ⟨es, d1, e1, hes, hat⟩ := retryLoop_skip c net
    (PromptRequest.Marshal ⟨p, dom, lvl, fmt, best, ex⟩) k (K + 1) 0 c.RetryConfig.RetryDelay none
    (fun j hj => by simpa [Client.received] using hprev j hj)
  refine ⟨K, es, d1, e1, ?_, hat⟩
  rw [run_eq_retryLoop c net p dom lvl fmt best ex hp, hK, hes, Nat.zero_add]

/-! ## Rounding to 53 bits -/

theorem log2Fuel_eq_log (fuel : Nat) : ∀ n, n ≤ fuel → log2Fuel fuel n = Nat.log 2 n := by
  induction fuel with
  | zero =>
    intro n hn
    have h0 : n = 0 := by omega
    subst h0
    simp [log2Fuel]
  | succ f ih =>
    intro n hn
    rw [log2Fuel]
    split
    · rename_i h
      exact (Nat.log_of_lt h).symm
    · rename_i h
      have h2 : 2 ≤ n := by omega
      rw [ih (n / 2) (by omega), Nat.log_of_one_lt_of_le (b := 2) (n := n) (by norm_num) h2]

theorem ilog2_eq_log (n : Nat) : ilog2 n = Nat.log 2 n := log2Fuel_eq_log n n (Nat.le_refl n)

theorem round53_small {n : Nat} (h : n < 2 ^ 53) : round53 n = n := by
  unfold round53
  rw [if_pos h]

/-- The shift used for a number of 54 bits or more, and the window it falls in. -/
theorem shift_bounds {n : Nat} (h : 2 ^ 53 ≤ n) :
    1 ≤ ilog2 n - 52 ∧ 2 ^ (ilog2 n - 52) * 2 ^ 52 ≤ n ∧ n < 2 ^ (ilog2 n - 52) * 2 ^ 53 := by
  rw [ilog2_eq_log]
  have hn : n ≠ 0 := by
    have : 0 < 2 ^ 53 := by norm_num
    omega
  have h1 : 53 ≤ Nat.log 2 n := Nat.le_log_of_pow_le (by norm_num) h
  have h2 : 2 ^ Nat.log 2 n ≤ n := Nat.pow_log_le_self 2 hn
  have h3 : n < 2 ^ (Nat.log 2 n + 1) := Nat.lt_pow_succ_log_self (by norm_num) n
  refine ⟨by omega, ?_, ?_⟩
  · rw [← Nat.pow_add, show Nat.log 2 n - 52 + 52 = Nat.log 2 n by omega]
    exact h2
  · rw [← Nat.pow_add, show Nat.log 2 n - 52 + 53 = Nat.log 2 n + 1 by omega]
    exact h3

/-- The two neighbours between which a number of 54 bits or more is rounded. -/
theorem round53_big {n : Nat} (h : 2 ^ 53 ≤ n) :
    n / 2 ^ (ilog2 n - 52) * 2 ^ (ilog2 n - 52) ≤ round53 n
      ∧ round53 n ≤ (n / 2 ^ (ilog2 n - 52) + 1) * 2 ^ (ilog2 n - 52) := by
  have hlt : ¬ n < 2 ^ 53 := by omega
  unfold round53
  rw [if_neg hlt]
  dsimp only
  split
  · exact ⟨Nat.mul_le_mul_right _ (Nat.le_succ _), Nat.le_refl _⟩
  · exact ⟨Nat.le_refl _, Nat.mul_le_mul_right _ (Nat.le_succ _)⟩

/-- The kept bits of a number of 54 bits or more: between `2^52` and `2^53`. -/
theorem kept_bounds {n : Nat} (h : 2 ^ 53 ≤ n) :
    2 ^ 52 ≤ n / 2 ^ (ilog2 n - 52) ∧ n / 2 ^ (ilog2 n - 52) < 2 ^ 53 := by
  obtain ⟨_, h2, h3⟩ := shift_bounds h
  have hpos : 0 < 2 ^ (ilog2 n - 52) := Nat.pos_pow_of_pos _ (by norm_num)
  constructor
  · rw [Nat.le_div_iff_mul_le hpos, Nat.mul_comm]
    exact h2
  · rw [Nat.div_lt_iff_lt_mul hpos, Nat.mul_comm]
    exact h3

/-- Numbers with at most 53 significant bits are not changed by rounding. -/
theorem round53_exact {n : Nat} (k : Nat) (h : n < 2 ^ 53) : round53 (n * 2 ^ k) = n * 2 ^ k := by
  by_cases hs : n * 2 ^ k < 2 ^ 53
  · exact round53_small hs
  · have hbig : 2 ^ 53 ≤ n * 2 ^ k := by omega
    obtain ⟨hs1, hs2, _⟩ := shift_bounds hbig
    have hsk : ilog2 (n * 2 ^ k) - 52 ≤ k := by
      by_contra hcon
      have hk : k + 1 ≤ ilog2 (n * 2 ^ k) - 52 := by omega
      have hp : 2 ^ (k + 1) ≤ 2 ^ (ilog2 (n * 2 ^ k) - 52) :=
        Nat.pow_le_pow_right (by norm_num) hk
      have hk0 : 0 < 2 ^ k := Nat.pos_pow_of_pos _ (by norm_num)
      have h4 : 2 ^ (k + 1) * 2 ^ 52 ≤ n * 2 ^ k :=
        Nat.le_trans (Nat.mul_le_mul_right _ hp) hs2
      have h5 : 2 ^ (k + 1) * 2 ^ 52 = 2 ^ 53 * 2 ^ k := by ring
      rw [h5] at h4
      have h6 : 2 ^ 53 ≤ n := Nat.le_of_mul_le_mul_right h4 hk0
      omega
    obtain ⟨t, ht⟩ : ∃ t, k = (ilog2 (n * 2 ^ k) - 52) + t := ⟨k - (ilog2 (n * 2 ^ k) - 52), by omega⟩
    generalize hs0 : ilog2 (n * 2 ^ k) - 52 = s at hs1 hs2 hsk ht
    have hform : n * 2 ^ k = (n * 2 ^ t) * 2 ^ s := by rw [ht]; ring
    have hpos : 0 < 2 ^ s := Nat.pos_pow_of_pos _ (by norm_num)
    have hmod : n * 2 ^ k % 2 ^ s = 0 := by rw [hform]; exact Nat.mul_mod_left _ _
    have hdiv : n * 2 ^ k / 2 ^ s = n * 2 ^ t := by rw [hform]; exact Nat.mul_div_left _ hpos
    have hhalf : 0 < 2 ^ (s - 1) := Nat.pos_pow_of_pos _ (by norm_num)
    have hlt : ¬ n * 2 ^ k < 2 ^ 53 := hs
    have hkey : round53 (n * 2 ^ k) = n * 2 ^ k / 2 ^ s * 2 ^ s := by
      unfold round53
      rw [if_neg hlt]
      dsimp only
      rw [hs0, hmod, if_neg]
      omega
    rw [hkey, hdiv, ← hform]

/-- Rounding to 53 bits is monotone. -/
theorem round53_mono {a b : Nat} (h : a ≤ b) : round53 a ≤ round53 b := by
  by_cases hb : b < 2 ^ 53
  · rw [round53_small hb, round53_small (Nat.lt_of_le_of_lt h hb)]
    exact h
  · have hb53 : 2 ^ 53 ≤ b := by omega
    obtain ⟨hsb1, _, _⟩ := shift_bounds hb53
    obtain ⟨hqb, _⟩ := kept_bounds hb53
    obtain ⟨hlob, _⟩ := round53_big hb53
    have htwo : 2 ^ 1 ≤ 2 ^ (ilog2 b - 52) := Nat.pow_le_pow_right (by norm_num) hsb1
    have hfloor : 2 ^ 52 * 2 ^ (ilog2 b - 52) ≤ round53 b :=
      Nat.le_trans (Nat.mul_le_mul_right _ hqb) hlob
    by_cases ha : a < 2 ^ 53
    · rw [round53_small ha]
      have h1 : 2 ^ 52 * 2 ^ 1 ≤ 2 ^ 52 * 2 ^ (ilog2 b - 52) := Nat.mul_le_mul_left _ htwo
      have h2 : (2 : Nat) ^ 52 * 2 ^ 1 = 2 ^ 53 := by norm_num
      omega
    · have ha53 : 2 ^ 53 ≤ a := by omega
      obtain ⟨_, hqa⟩ := kept_bounds ha53
      obtain ⟨_, hhia⟩ := round53_big ha53
      have hlog : ilog2 a ≤ ilog2 b := by
        rw [ilog2_eq_log, ilog2_eq_log]
        exact Nat.log_mono_right h
      by_cases hss : ilog2 a - 52 < ilog2 b - 52
      · have hp : 2 ^ (ilog2 a - 52 + 1) ≤ 2 ^ (ilog2 b - 52) :=
          Nat.pow_le_pow_right (by norm_num) hss
        have h1 : (a / 2 ^ (ilog2 a - 52) + 1) * 2 ^ (ilog2 a - 52)
            ≤ 2 ^ 53 * 2 ^ (ilog2 a - 52) := Nat.mul_le_mul_right _ hqa
        have h2 : 2 ^ 53 * 2 ^ (ilog2 a - 52) = 2 ^ 52 * 2 ^ (ilog2 a - 52 + 1) := by ring
        have h3 : 2 ^ 52 * 2 ^ (ilog2 a - 52 + 1) ≤ 2 ^ 52 * 2 ^ (ilog2 b - 52) :=
          Nat.mul_le_mul_left _ hp
        omega
      · have hseq : ilog2 a - 52 = ilog2 b - 52 := by omega
        have hqq : a / 2 ^ (ilog2 b - 52) ≤ b / 2 ^ (ilog2 b - 52) := Nat.div_le_div_right h
        rw [hseq] at hhia
        by_cases hq : a / 2 ^ (ilog2 b - 52) < b / 2 ^ (ilog2 b - 52)
        · have h1 : (a / 2 ^ (ilog2 b - 52) + 1) * 2 ^ (ilog2 b - 52)
              ≤ b / 2 ^ (ilog2 b - 52) * 2 ^ (ilog2 b - 52) := Nat.mul_le_mul_right _ hq
          omega
        · have hqeq : a / 2 ^ (ilog2 b - 52) = b / 2 ^ (ilog2 b - 52) := by omega
          have hda := Nat.div_add_mod a (2 ^ (ilog2 b - 52))
          have hdb := Nat.div_add_mod b (2 ^ (ilog2 b - 52))
          rw [hqeq] at hda
          have hr : a % 2 ^ (ilog2 b - 52) ≤ b % 2 ^ (ilog2 b - 52) := by omega
          unfold round53
          rw [if_neg ha, if_neg hb]
          dsimp only
          rw [hseq, hqeq]
          split
          · rename_i hca
            rw [if_pos]
            rcases hca with hca | ⟨hca1, hca2⟩
            · exact Or.inl (Nat.lt_of_lt_of_le hca hr)
            · rcases Nat.lt_or_ge (2 ^ (ilog2 b - 52 - 1)) (b % 2 ^ (ilog2 b - 52)) with hlt | hge
              · exact Or.inl hlt
              · exact Or.inr ⟨by omega, hca2⟩
          · split
            · exact Nat.mul_le_mul_right _ (Nat.le_succ _)
            · exact Nat.le_refl _

theorem round53_exact_le {n : Nat} (k : Nat) (h : n ≤ 2 ^ 53) :
    round53 (n * 2 ^ k) = n * 2 ^ k := by
  rcases Nat.lt_or_ge n (2 ^ 53) with hlt | hge
  · exact round53_exact k hlt
  · have hn : n = 1 * 2 ^ 53 := by omega
    rw [hn, Nat.mul_assoc, ← Nat.pow_add]
    exact round53_exact (53 + k) (by norm_num)

theorem sign_cast_mul (N M : Nat) (h : N = 0 → M = 0) :
    Int.sign (N : Int) * (M : Int) = (M : Int) := by
  rcases Nat.eq_zero_or_pos N with h0 | hpos
  · rw [h h0]
    simp
  · have hs : Int.sign (N : Int) = 1 := Int.sign_eq_one_of_pos (by exact_mod_cast hpos)
    rw [hs, one_mul]

theorem round53_zero : round53 0 = 0 := round53_small (by norm_num)

/-! ## The float product `float64(d) * m` truncated to a duration -/

/-- The truncated product of a non-negative duration below `2^53` and a
non-negative float, in natural numbers. -/
theorem mul_trunc_eq (x a : Nat) (e : Int) (hx : x < 2 ^ 53) :
    ((float64OfDuration (x : Int)).mul ⟨(a : Int), e⟩).trunc
      = ((truncProd x a e : Nat) : Int) := by
  unfold truncProd
  have hfx : float64OfDuration (x : Int) = ⟨(x : Int), 0⟩ := by
    unfold float64OfDuration
    rw [Int.natAbs_ofNat, round53_small hx, sign_cast_mul x x (fun h => h)]
  rw [hfx]
  unfold Float64.mul Float64.trunc
  simp only [zero_add]
  have hprod : ((x : Int) * (a : Int)) = ((x * a : Nat) : Int) := by push_cast; ring
  rw [hprod, Int.natAbs_ofNat,
    sign_cast_mul (x * a) (round53 (x * a)) (fun h => by rw [h]; exact round53_zero)]
  split
  · push_cast
    ring
  · rw [Int.natAbs_ofNat,
      sign_cast_mul (round53 (x * a)) _ (fun h => by rw [h]; exact Nat.zero_div _)]

/-- A whole number of at most 53 bits below the exact product is below the
truncated float product. -/
theorem truncProd_ge (x a : Nat) (e : Int) (y : Nat) (hy : y ≤ 2 ^ 53)
    (h : (y : ℚ) ≤ (x : ℚ) * ((a : ℚ) * (2 : ℚ) ^ e)) : y ≤ truncProd x a e := by
  unfold truncProd
  split
  · rename_i he
    obtain ⟨n, hn⟩ := Int.eq_ofNat_of_zero_le he
    subst hn
    rw [zpow_natCast] at h
    have h1 : y ≤ x * (a * 2 ^ n) := by exact_mod_cast h
    rw [Int.toNat_ofNat]
    have hpos : 0 < 2 ^ n := Nat.pos_pow_of_pos _ (by norm_num)
    rcases Nat.lt_or_ge (x * a) (2 ^ 53) with hs | hbig
    · rw [round53_small hs]
      calc y ≤ x * (a * 2 ^ n) := h1
        _ = x * a * 2 ^ n := by ring
    · have h2 : round53 (1 * 2 ^ 53) ≤ round53 (x * a) := round53_mono (by omega)
      rw [round53_exact 53 (by norm_num)] at h2
      calc y ≤ 2 ^ 53 := hy
        _ ≤ round53 (x * a) := by omega
        _ ≤ round53 (x * a) * 2 ^ n := Nat.le_mul_of_pos_right _ hpos
  · rename_i he
    obtain ⟨k, hk⟩ : ∃ k : Nat, e = -(k : Int) := ⟨(-e).toNat, by omega⟩
    subst hk
    rw [zpow_neg, zpow_natCast] at h
    have hpos : (0 : ℚ) < 2 ^ k := by positivity
    have h1 : (y : ℚ) * 2 ^ k ≤ (x : ℚ) * (a : ℚ) := by
      have := mul_le_mul_of_nonneg_right h (le_of_lt hpos)
      rw [mul_assoc, mul_assoc, inv_mul_cancel₀ (ne_of_gt hpos), mul_one] at this
      exact this
    have h2 : y * 2 ^ k ≤ x * a := by exact_mod_cast h1
    have h3 : round53 (y * 2 ^ k) ≤ round53 (x * a) := round53_mono h2
    rw [round53_exact_le k hy] at h3
    rw [neg_neg, Int.toNat_ofNat]
    exact (Nat.le_div_iff_mul_le (Nat.pos_pow_of_pos _ (by norm_num))).2 h3

/-- A whole number of at most 53 bits above the exact product is above the
truncated float product. -/
theorem truncProd_le (x a : Nat) (e : Int) (y : Nat) (hy : y ≤ 2 ^ 53)
    (h : (x : ℚ) * ((a : ℚ) * (2 : ℚ) ^ e) ≤ (y : ℚ)) : truncProd x a e ≤ y := by
  unfold truncProd
  split
  · rename_i he
    obtain ⟨n, hn⟩ := Int.eq_ofNat_of_zero_le he
    subst hn
    rw [zpow_natCast] at h
    have h1 : x * (a * 2 ^ n) ≤ y := by exact_mod_cast h
    rw [Int.toNat_ofNat]
    have hpos : 0 < 2 ^ n := Nat.pos_pow_of_pos _ (by norm_num)
    have h2 : x * a * 2 ^ n ≤ y := by
      calc x * a * 2 ^ n = x * (a * 2 ^ n) := by ring
        _ ≤ y := h1
    have h3 : x * a ≤ x * a * 2 ^ n := Nat.le_mul_of_pos_right _ hpos
    have h4 : round53 (x * a * 2 ^ 0) = x * a * 2 ^ 0 := round53_exact_le 0 (by omega)
    rw [pow_zero, Nat.mul_one] at h4
    rw [h4]
    exact h2
  · rename_i he
    obtain ⟨k, hk⟩ : ∃ k : Nat, e = -(k : Int) := ⟨(-e).toNat, by omega⟩
    subst hk
    rw [zpow_neg, zpow_natCast] at h
    have hpos : (0 : ℚ) < 2 ^ k := by positivity
    have h1 : (x : ℚ) * (a : ℚ) ≤ (y : ℚ) * 2 ^ k := by
      have := mul_le_mul_of_nonneg_right h (le_of_lt hpos)
      rw [mul_assoc, mul_assoc, inv_mul_cancel₀ (ne_of_gt hpos), mul_one] at this
      exact this
    have h2 : x * a ≤ y * 2 ^ k := by exact_mod_cast h1
    have h3 : round53 (x * a) ≤ round53 (y * 2 ^ k) := round53_mono h2
    rw [round53_exact_le k hy] at h3
    rw [neg_neg, Int.toNat_ofNat]
    exact Nat.div_le_of_le_mul (by rw [Nat.mul_comm (2 ^ k) y]; exact h3)

/-! ## The backoff step -/

/-- A float that is at least 1 has a positive significand. -/
theorem mant_pos_of_one_le (m : Float64) (hm : 1 ≤ m.toRat) : 0 < m.mant := by
  unfold Float64.toRat at hm
  have hp : (0 : ℚ) < (2 : ℚ) ^ m.exp := by positivity
  by_contra hcon
  have h0 : (m.mant : ℚ) ≤ 0 := by exact_mod_cast (not_lt.1 hcon)
  have : (m.mant : ℚ) * (2 : ℚ) ^ m.exp ≤ 0 := mul_nonpos_of_nonpos_of_nonneg h0 (le_of_lt hp)
  linarith

/-- In the exact range the product `float64(d) * Multiplier`, converted back
to a duration, is the truncated product in natural numbers. -/
theorem product_eq_truncProd (cfg : RetryConfig) (d : Duration) (h0 : 0 ≤ d)
    (hd : d ≤ cfg.MaxDelay) (hm : 1 ≤ cfg.Multiplier.toRat)
    (hr : (cfg.MaxDelay : ℚ) * cfg.Multiplier.toRat < 2 ^ 53) :
    durationOfFloat64 ((float64OfDuration d).mul cfg.Multiplier)
        = ((truncProd d.toNat cfg.Multiplier.mant.toNat cfg.Multiplier.exp : Nat) : Int)
      ∧ truncProd d.toNat cfg.Multiplier.mant.toNat cfg.Multiplier.exp ≤ 2 ^ 53
      ∧ d.toNat ≤ truncProd d.toNat cfg.Multiplier.mant.toNat cfg.Multiplier.exp
      ∧ (d.toNat : ℚ) * ((cfg.Multiplier.mant.toNat : ℚ) * (2 : ℚ) ^ cfg.Multiplier.exp)
          = (d : ℚ) * cfg.Multiplier.toRat := by
  have hmant := mant_pos_of_one_le cfg.Multiplier hm
  obtain ⟨x, hx⟩ := Int.eq_ofNat_of_zero_le h0
  obtain ⟨a, ha⟩ := Int.eq_ofNat_of_zero_le (le_of_lt hmant)
  have hrat : cfg.Multiplier.toRat = (a : ℚ) * (2 : ℚ) ^ cfg.Multiplier.exp := by
    unfold Float64.toRat
    rw [ha]
    norm_cast
  have hdq : (d : ℚ) = (x : ℚ) := by rw [hx]; norm_cast
  have hMq : (d : ℚ) ≤ (cfg.MaxDelay : ℚ) := by exact_mod_cast hd
  have hd0q : (0 : ℚ) ≤ (d : ℚ) := by exact_mod_cast h0
  have hM0q : (0 : ℚ) ≤ (cfg.MaxDelay : ℚ) := le_trans hd0q hMq
  have hmono : (d : ℚ) * cfg.Multiplier.toRat ≤ (cfg.MaxDelay : ℚ) * cfg.Multiplier.toRat :=
    mul_le_mul_of_nonneg_right hMq (by linarith)
  have hge : (d : ℚ) ≤ (d : ℚ) * cfg.Multiplier.toRat := le_mul_of_one_le_right hd0q hm
  have hx53 : x < 2 ^ 53 := by
    have : (x : ℚ) < 2 ^ 53 := by rw [← hdq]; linarith
    exact_mod_cast this
  have hmeq : cfg.Multiplier = ⟨(a : Int), cfg.Multiplier.exp⟩ := by
    cases hc : cfg.Multiplier with
    | mk mant e =>
      rw [hc] at ha
      simp only at ha
      rw [ha]
  have hxn : d.toNat = x := by rw [hx]; exact Int.toNat_ofNat x
  have han : cfg.Multiplier.mant.toNat = a := by rw [ha]; exact Int.toNat_ofNat a
  rw [hxn, han]
  have hle : truncProd x a cfg.Multiplier.exp ≤ 2 ^ 53 :=
    truncProd_le x a cfg.Multiplier.exp (2 ^ 53) (Nat.le_refl _) (by
      rw [← hrat, ← hdq]
      push_cast
      linarith)
  have hge2 : x ≤ truncProd x a cfg.Multiplier.exp :=
    truncProd_ge x a cfg.Multiplier.exp x (Nat.le_of_lt hx53) (by
      rw [← hrat, ← hdq]
      exact hge)
  refine ⟨?_, hle, hge2, by rw [← hrat, ← hdq]⟩
  have htr : ((float64OfDuration d).mul cfg.Multiplier).trunc
      = ((truncProd x a cfg.Multiplier.exp : Nat) : Int) := by
    rw [hx, hmeq]
    exact mul_trunc_eq x a _ hx53
  unfold durationOfFloat64
  rw [htr, if_pos]
  constructor
  · have : (0 : Int) ≤ ((truncProd x a cfg.Multiplier.exp : Nat) : Int) := Int.ofNat_nonneg _
    have h63 : -(2 : Int) ^ 63 ≤ 0 := by norm_num
    exact le_trans h63 this
  · have h1 : ((truncProd x a cfg.Multiplier.exp : Nat) : Int) ≤ ((2 ^ 53 : Nat) : Int) := by
      exact_mod_cast hle
    have h2 : ((2 ^ 53 : Nat) : Int) < (2 : Int) ^ 63 := by norm_num
    exact lt_of_le_of_lt h1 h2

/-- In the exact range the next delay is between the current one and `MaxDelay`. -/
theorem nextDelay_bounds (cfg : RetryConfig) (d : Duration) (h0 : 0 ≤ d)
    (hd : d ≤ cfg.MaxDelay) (hm : 1 ≤ cfg.Multiplier.toRat)
    (hr : (cfg.MaxDelay : ℚ) * cfg.Multiplier.toRat < 2 ^ 53) :
    d ≤ nextDelay cfg d ∧ nextDelay cfg d ≤ cfg.MaxDelay := by
  obtain ⟨heq, _, hge, _⟩ := product_eq_truncProd cfg d h0 hd hm hr
  have hdn : ((d.toNat : Nat) : Int) = d := Int.toNat_of_nonneg h0
  have hge2 : d ≤ ((truncProd d.toNat cfg.Multiplier.mant.toNat cfg.Multiplier.exp : Nat) : Int) := by
    have h1 : ((d.toNat : Nat) : Int)
        ≤ ((truncProd d.toNat cfg.Multiplier.mant.toNat cfg.Multiplier.exp : Nat) : Int) := by
      exact_mod_cast hge
    exact le_of_eq_of_le hdn.symm h1
  unfold nextDelay
  simp only [heq]
  split
  · exact ⟨hd, le_refl _⟩
  · rename_i hgt
    exact ⟨hge2, not_lt.1 hgt⟩

/-- In the exact range, when the exact product is a whole number the next
delay is that number, clamped at `MaxDelay`. -/
theorem nextDelay_exact (cfg : RetryConfig) (d z : Int) (h0 : 0 ≤ d)
    (hd : d ≤ cfg.MaxDelay) (hm : 1 ≤ cfg.Multiplier.toRat)
    (hr : (cfg.MaxDelay : ℚ) * cfg.Multiplier.toRat < 2 ^ 53)
    (hz : (z : ℚ) = (d : ℚ) * cfg.Multiplier.toRat) :
    nextDelay cfg d = min z cfg.MaxDelay := by
  obtain ⟨heq, _, _, hrat⟩ := product_eq_truncProd cfg d h0 hd hm hr
  have hMq : (d : ℚ) ≤ (cfg.MaxDelay : ℚ) := by exact_mod_cast hd
  have hd0q : (0 : ℚ) ≤ (d : ℚ) := by exact_mod_cast h0
  have hz0 : 0 ≤ z := by
    have : (0 : ℚ) ≤ (z : ℚ) := by rw [hz]; exact mul_nonneg hd0q (by linarith)
    exact_mod_cast this
  obtain ⟨y, hy⟩ := Int.eq_ofNat_of_zero_le hz0
  have hzq : (z : ℚ) = (y : ℚ) := by rw [hy]; norm_cast
  have hy53 : y ≤ 2 ^ 53 := by
    have h1 : (d : ℚ) * cfg.Multiplier.toRat ≤ (cfg.MaxDelay : ℚ) * cfg.Multiplier.toRat :=
      mul_le_mul_of_nonneg_right hMq (by linarith)
    have : (y : ℚ) ≤ 2 ^ 53 := by rw [← hzq, hz]; linarith
    exact_mod_cast this
  have h1 : y ≤ truncProd d.toNat cfg.Multiplier.mant.toNat cfg.Multiplier.exp :=
    truncProd_ge _ _ _ y hy53 (by rw [hrat, ← hz, hzq])
  have h2 : truncProd d.toNat cfg.Multiplier.mant.toNat cfg.Multiplier.exp ≤ y :=
    truncProd_le _ _ _ y hy53 (by rw [hrat, ← hz, hzq])
  have h3 : truncProd d.toNat cfg.Multiplier.mant.toNat cfg.Multiplier.exp = y :=
    Nat.le_antisymm h2 h1
  unfold nextDelay
  simp only [heq, h3, ← hy]
  split
  · rename_i hgt
    exact (min_eq_right (le_of_lt hgt)).symm
  · rename_i hgt
    exact (min_eq_left (not_lt.1 hgt)).symm

/-! ## The delays in a trace -/

/-- The trace of an iteration and what follows it: either the iteration ends
the call, or the loop goes on with the updated delay. -/
theorem retryLoop_trace (c : Client) (net : Network) (jsonData : JSON) (k a : Nat)
    (d : Duration) (e : Option AttemptError) :
    (retryLoop c net jsonData (k + 1) a d e).2 = iterationEvents c jsonData a d
      ∨ ∃ e1, (retryLoop c net jsonData (k + 1) a d e).2
          = iterationEvents c jsonData a d
            ++ (retryLoop c net jsonData k (a + 1) (delayAfterHead c a d) e1).2 := by
  cases hn : net a (c.BaseURL ++ "/refine-prompt") "application/json" jsonData with
  | error cause =>
    right
    rw [retryLoop_retry c net jsonData k a d e (by rw [hn]; trivial)]
    exact ⟨some (attemptError
      (net a (c.BaseURL ++ "/refine-prompt") "application/json" jsonData) (a + 1)), rfl⟩
  | response resp =>
    by_cases h200 : resp.StatusCode = 200
    · left
      rw [retryLoop_ok c net jsonData k a d e resp hn h200]
      cases PromptResponse.Decode resp.Body <;> rfl
    · by_cases h4 : resp.StatusCode ≥ 400 ∧ resp.StatusCode < 500
      · left
        rw [retryLoop_clientError c net jsonData k a d e resp hn h4]
      · right
        rw [retryLoop_retry c net jsonData k a d e (by rw [hn]; exact ⟨h200, h4⟩)]
        exact ⟨some (attemptError
          (net a (c.BaseURL ++ "/refine-prompt") "application/json" jsonData) (a + 1)), rfl⟩

theorem delayAfterHead_delayAt (c : Client) (a : Nat) :
    delayAfterHead c a (delayAt c.RetryConfig (a - 1)) = delayAt c.RetryConfig a := by
  unfold delayAfterHead
  rcases Nat.eq_zero_or_pos a with h0 | hpos
  · subst h0
    simp
  · rw [if_pos hpos]
    obtain ⟨b, hb⟩ : ∃ b, a = b + 1 := ⟨a - 1, by omega⟩
    subst hb
    simp [delayAt]

/-- The delay before the first post of an iteration, and the shift to the rest. -/
theorem delayBeforeAux_iteration (c : Client) (jsonData : JSON) (a : Nat) (d : Duration)
    (rest : List Event) :
    delayBeforeAux none (iterationEvents c jsonData a d ++ rest) 0
        = (if a = 0 then none else some d)
      ∧ ∀ j, delayBeforeAux none (iterationEvents c jsonData a d ++ rest) (j + 1)
          = delayBeforeAux none rest j := by
  unfold iterationEvents
  rcases Nat.eq_zero_or_pos a with h0 | hpos
  · subst h0
    simp [delayBeforeAux]
  · have hne : a ≠ 0 := by omega
    simp [hpos, hne, delayBeforeAux]

/-- In the trace of the loop started at attempt `a` with the delay the
attempt number calls for, the delay before the `j`-th post is the one
`delayAt` gives for attempt `a + j`. -/
theorem delayBefore_retryLoop (c : Client) (net : Network) (jsonData : JSON) (k : Nat) :
    ∀ (a : Nat) (e : Option AttemptError) (j : Nat),
      j < attempts (retryLoop c net jsonData k a (delayAt c.RetryConfig (a - 1)) e).2 →
      delayBeforeAux none (retryLoop c net jsonData k a (delayAt c.RetryConfig (a - 1)) e).2 j
        = (if a + j = 0 then none else some (delayAt c.RetryConfig (a + j - 1))) := by
  induction k with
  | zero =>
    intro a e j hj
    simp [retryLoop, attempts] at hj
  | succ k ih =>
    intro a e j hj
    rcases retryLoop_trace c net jsonData k a (delayAt c.RetryConfig (a - 1)) e with hstop | ⟨e1, hgo⟩
    · rw [hstop] at hj ⊢
      rw [attempts_iterationEvents] at hj
      have hj0 : j = 0 := by omega
      subst hj0
      have := (delayBeforeAux_iteration c jsonData a (delayAt c.RetryConfig (a - 1)) []).1
      rw [List.append_nil] at this
      rw [this]
      simp
    · rw [hgo] at hj ⊢
      rw [attempts_append, attempts_iterationEvents, delayAfterHead_delayAt] at hj
      rw [delayAfterHead_delayAt]
      cases j with
      | zero =>
        rw [(delayBeforeAux_iteration c jsonData a (delayAt c.RetryConfig (a - 1)) _).1]
        simp
      | succ j =>
        rw [(delayBeforeAux_iteration c jsonData a (delayAt c.RetryConfig (a - 1)) _).2 j]
        have hj1 : j < attempts
            (retryLoop c net jsonData k (a + 1) (delayAt c.RetryConfig (a + 1 - 1)) e1).2 := by
          rw [Nat.add_sub_cancel]
          omega
        have := ih (a + 1) e1 j hj1
        rw [Nat.add_sub_cancel] at this
        rw [this]
        have h1 : a + 1 + j ≠ 0 := by omega
        have h2 : a + (j + 1) ≠ 0 := by omega
        rw [if_neg h1, if_neg h2, show a + 1 + j - 1 = a + (j + 1) - 1 by omega]

/-- The delay slept before each attempt of a call that reaches it: nothing
before attempt 0, `delayAt (n - 1)` before attempt `n ≥ 1`. -/
theorem delayBefore_run (c : Client) (net : Network) (p : String)
    (dom : Option DomainType) (lvl : Option ExpertiseLevel) (fmt : Option OutputFormat)
    (best ex : Option Bool) (n : Nat)
    (hn : n < attempts (c.RefinePromptWithOptions net p dom lvl fmt best ex).2) :
    delayBefore (c.RefinePromptWithOptions net p dom lvl fmt best ex).2 n
      = (if n = 0 then none else some (delayAt c.RetryConfig (n - 1))) := by
  by_cases hp : p = ""
  · subst hp
    simp [Client.RefinePromptWithOptions, attempts] at hn
  · rw [run_eq_retryLoop c net p dom lvl fmt best ex hp] at hn ⊢
    have := delayBefore_retryLoop c net (PromptRequest.Marshal ⟨p, dom, lvl, fmt, best, ex⟩)
      (c.RetryConfig.MaxRetries + 1).toNat 0 none n hn
    rw [Nat.zero_add] at this
    exact this

/-- Nothing is slept before the first attempt: a trace does not start with a sleep. -/
theorem head_not_sleep (c : Client) (net : Network) (p : String)
    (dom : Option DomainType) (lvl : Option ExpertiseLevel) (fmt : Option OutputFormat)
    (best ex : Option Bool) (d : Duration) :
    (c.RefinePromptWithOptions net p dom lvl fmt best ex).2.head? ≠ some (Event.sleep d) := by
  by_cases hp : p = ""
  · subst hp
    simp [Client.RefinePromptWithOptions]
  · rw [run_eq_retryLoop c net p dom lvl fmt best ex hp]
    cases hk : (c.RetryConfig.MaxRetries + 1).toNat with
    | zero => simp [retryLoop]
    | succ k =>
      rcases retryLoop_trace c net (PromptRequest.Marshal ⟨p, dom, lvl, fmt, best, ex⟩) k 0
        c.RetryConfig.RetryDelay none with hstop | ⟨e1, hgo⟩
      · rw [hstop]
        simp [iterationEvents]
      · rw [hgo]
        simp [iterationEvents]

/-- A trace is empty or contains an attempt. -/
theorem trace_nil_or_attempts_pos (c : Client) (net : Network) (p : String)
    (dom : Option DomainType) (lvl : Option ExpertiseLevel) (fmt : Option OutputFormat)
    (best ex : Option Bool) :
    (c.RefinePromptWithOptions net p dom lvl fmt best ex).2 = []
      ∨ 0 < attempts (c.RefinePromptWithOptions net p dom lvl fmt best ex).2 := by
  by_cases hp : p = ""
  · subst hp
    left
    simp [Client.RefinePromptWithOptions]
  · rw [run_eq_retryLoop c net p dom lvl fmt best ex hp]
    cases hk : (c.RetryConfig.MaxRetries + 1).toNat with
    | zero =>
      left
      simp [retryLoop]
    | succ k =>
      right
      rcases retryLoop_trace c net (PromptRequest.Marshal ⟨p, dom, lvl, fmt, best, ex⟩) k 0
        c.RetryConfig.RetryDelay none with hstop | ⟨e1, hgo⟩
      · rw [hstop, attempts_iterationEvents]
        exact Nat.one_pos
      · rw [hgo, attempts_append, attempts_iterationEvents]
        omega

/-- No delay precedes attempt 0. -/
theorem delayBefore_zero (c : Client) (net : Network) (p : String)
    (dom : Option DomainType) (lvl : Option ExpertiseLevel) (fmt : Option OutputFormat)
    (best ex : Option Bool) :
    delayBefore (c.RefinePromptWithOptions net p dom lvl fmt best ex).2 0 = none := by
  rcases trace_nil_or_attempts_pos c net p dom lvl fmt best ex with hnil | hpos
  · rw [hnil]
    rfl
  · rw [delayBefore_run c net p dom lvl fmt best ex 0 hpos]
    simp

/-! ## The sequence of delays -/

/-- In the exact range every delay is between 0 and `MaxDelay`, and the next
one is not smaller. -/
theorem delayAt_bounds (cfg : RetryConfig) (h0 : 0 ≤ cfg.RetryDelay)
    (hd : cfg.RetryDelay ≤ cfg.MaxDelay) (hm : 1 ≤ cfg.Multiplier.toRat)
    (hr : (cfg.MaxDelay : ℚ) * cfg.Multiplier.toRat < 2 ^ 53) (i : Nat) :
    0 ≤ delayAt cfg i ∧ delayAt cfg i ≤ cfg.MaxDelay ∧ delayAt cfg i ≤ delayAt cfg (i + 1) := by
  induction i with
  | zero =>
    exact ⟨h0, hd, (nextDelay_bounds cfg _ h0 hd hm hr).1⟩
  | succ i ih =>
    obtain ⟨hi0, hiM, _⟩ := ih
    obtain ⟨hge, hle⟩ := nextDelay_bounds cfg _ hi0 hiM hm hr
    have h1 : 0 ≤ delayAt cfg (i + 1) := le_trans hi0 hge
    exact ⟨h1, hle, (nextDelay_bounds cfg _ h1 hle hm hr).1⟩

/-- In the exact range the delays never decrease. -/
theorem delayAt_mono (cfg : RetryConfig) (h0 : 0 ≤ cfg.RetryDelay)
    (hd : cfg.RetryDelay ≤ cfg.MaxDelay) (hm : 1 ≤ cfg.Multiplier.toRat)
    (hr : (cfg.MaxDelay : ℚ) * cfg.Multiplier.toRat < 2 ^ 53) {i j : Nat} (hij : i ≤ j) :
    delayAt cfg i ≤ delayAt cfg j := by
  induction j with
  | zero =>
    have hi : i = 0 := by omega
    rw [hi]
  | succ j ih =>
    rcases Nat.lt_or_ge i (j + 1) with hlt | hge
    · exact le_trans (ih (by omega)) (delayAt_bounds cfg h0 hd hm hr j).2.2
    · have hi : i = j + 1 := by omega
      rw [hi]

/-- In the exact range, while the products `RetryDelay * Multiplier ^ i` are
whole numbers of nanoseconds, the delay is the closed form of the backoff
policy. -/
theorem delayAt_formula (cfg : RetryConfig) (h0 : 0 ≤ cfg.RetryDelay)
    (hd : cfg.RetryDelay ≤ cfg.MaxDelay) (hm : 1 ≤ cfg.Multiplier.toRat)
    (hr : (cfg.MaxDelay : ℚ) * cfg.Multiplier.toRat < 2 ^ 53) (n : Nat)
    (hw : ∀ i, i ≤ n → ∃ z : Int, (z : ℚ) = (cfg.RetryDelay : ℚ) * cfg.Multiplier.toRat ^ i) :
    ((delayAt cfg n : Int) : ℚ)
      = min ((cfg.RetryDelay : ℚ) * cfg.Multiplier.toRat ^ n) (cfg.MaxDelay : ℚ) := by
  induction n with
  | zero =>
    have hdq : (cfg.RetryDelay : ℚ) ≤ (cfg.MaxDelay : ℚ) := by exact_mod_cast hd
    simp only [delayAt, pow_zero, mul_one]
    exact (min_eq_left hdq).symm
  | succ n ih =>
    have ihn := ih (fun i hi => hw i (by omega))
    obtain ⟨hi0, hiM, _⟩ := delayAt_bounds cfg h0 hd hm hr n
    obtain ⟨hge, hle⟩ := nextDelay_bounds cfg _ hi0 hiM hm hr
    have hR0 : (0 : ℚ) ≤ (cfg.RetryDelay : ℚ) := by exact_mod_cast h0
    have hpow : (0 : ℚ) ≤ (cfg.RetryDelay : ℚ) * cfg.Multiplier.toRat ^ n :=
      mul_nonneg hR0 (pow_nonneg (by linarith) n)
    have hstep : (cfg.RetryDelay : ℚ) * cfg.Multiplier.toRat ^ n
        ≤ (cfg.RetryDelay : ℚ) * cfg.Multiplier.toRat ^ (n + 1) := by
      rw [pow_succ, ← mul_assoc]
      exact le_mul_of_one_le_right hpow hm
    rcases le_or_lt ((cfg.RetryDelay : ℚ) * cfg.Multiplier.toRat ^ n) (cfg.MaxDelay : ℚ)
      with hcase | hcase
    · rw [min_eq_left hcase] at ihn
      obtain ⟨z, hz⟩ := hw (n + 1) (Nat.le_refl _)
      have hz2 : (z : ℚ) = ((delayAt cfg n : Int) : ℚ) * cfg.Multiplier.toRat := by
        rw [hz, ihn, pow_succ, mul_assoc]
      have := nextDelay_exact cfg (delayAt cfg n) z hi0 hiM hm hr hz2
      simp only [delayAt]
      rw [this, ← hz]
      push_cast
      rfl
    · rw [min_eq_right (le_of_lt hcase)] at ihn
      have hmax : delayAt cfg n = cfg.MaxDelay := by exact_mod_cast ihn
      have hnext : delayAt cfg (n + 1) = cfg.MaxDelay := by
        simp only [delayAt]
        rw [hmax] at hge hle ⊢
        exact le_antisymm hle hge
      rw [hnext]
      exact (min_eq_right (le_trans (le_of_lt hcase) hstep)).symm

/-! ## The wire format of the request -/

theorem keyMatches_lazy_prompt :
    keyMatches "lazy_prompt" "lazy_prompt" = true := by decide

theorem keyMatches_domain :
    keyMatches "domain" "lazy_prompt" = false ∧ keyMatches "domain" "domain" = true := by decide

theorem keyMatches_expertise_level :
    keyMatches "expertise_level" "lazy_prompt" = false
      ∧ keyMatches "expertise_level" "domain" = false
      ∧ keyMatches "expertise_level" "expertise_level" = true := by decide

theorem keyMatches_output_format :
    keyMatches "output_format" "lazy_prompt" = false
      ∧ keyMatches "output_format" "domain" = false
      ∧ keyMatches "output_format" "expertise_level" = false
      ∧ keyMatches "output_format" "output_format" = true := by decide

theorem keyMatches_include_best_practices :
    keyMatches "include_best_practices" "lazy_prompt" = false
      ∧ keyMatches "include_best_practices" "domain" = false
      ∧ keyMatches "include_best_practices" "expertise_level" = false
      ∧ keyMatches "include_best_practices" "output_format" = false
      ∧ keyMatches "include_best_practices" "include_best_practices" = true := by decide

theorem keyMatches_include_examples :
    keyMatches "include_examples" "lazy_prompt" = false
      ∧ keyMatches "include_examples" "domain" = false
      ∧ keyMatches "include_examples" "expertise_level" = false
      ∧ keyMatches "include_examples" "output_format" = false
      ∧ keyMatches "include_examples" "include_best_practices" = false
      ∧ keyMatches "include_examples" "include_examples" = true := by decide

/-- Decoding the marshalled request gives back the request. -/
theorem unmarshal_marshal (r : PromptRequest) :
    PromptRequest.Unmarshal r.Marshal = .ok r := by
  obtain ⟨p, dom, lvl, fmt, best, ex⟩ := r
  cases dom <;> cases lvl <;> cases fmt <;> cases best <;> cases ex <;>
    simp [PromptRequest.Unmarshal, PromptRequest.Marshal, omitemptyPtr, PromptRequest.setFields,
      PromptRequest.setField, PromptRequest.zero, decodeString, decodeStringPtr, decodeBoolPtr,
      keyMatches_lazy_prompt, keyMatches_domain, keyMatches_expertise_level,
      keyMatches_output_format, keyMatches_include_best_practices, keyMatches_include_examples,
      bind, Except.bind, Except.map]

/-- The members of the marshalled request. -/
theorem marshal_fields (r : PromptRequest) :
    r.Marshal.field "lazy_prompt" = some (JSON.str r.LazyPrompt)
      ∧ r.Marshal.field "domain" = r.Domain.map JSON.str
      ∧ r.Marshal.field "expertise_level" = r.ExpertiseLevel.map JSON.str
      ∧ r.Marshal.field "output_format" = r.OutputFormat.map JSON.str
      ∧ r.Marshal.field "include_best_practices" = r.IncludeBestPractices.map JSON.bool
      ∧ r.Marshal.field "include_examples" = r.IncludeExamples.map JSON.bool := by
  obtain ⟨p, dom, lvl, fmt, best, ex⟩ := r
  cases dom <;> cases lvl <;> cases fmt <;> cases best <;> cases ex <;>
    simp [PromptRequest.Marshal, omitemptyPtr, JSON.field, List.find?]

/-- Every post of the loop carries the marshalled request to the refine-prompt URL. -/
theorem posts_retryLoop (c : Client) (net : Network) (jsonData : JSON) (k : Nat) :
    ∀ (a : Nat) (d : Duration) (e : Option AttemptError) (ev : Event),
      ev ∈ (retryLoop c net jsonData k a d e).2 → ev.isPost = true →
      ev = Event.post (c.BaseURL ++ "/refine-prompt") "application/json" jsonData := by
  have hiter : ∀ (a : Nat) (d : Duration) (ev : Event), ev ∈ iterationEvents c jsonData a d →
      ev.isPost = true →
      ev = Event.post (c.BaseURL ++ "/refine-prompt") "application/json" jsonData := by
    intro a d ev hev hpost
    unfold iterationEvents at hev
    rcases List.mem_append.1 hev with h1 | h1
    · split at h1
      · rw [List.mem_singleton] at h1
        rw [h1] at hpost
        simp [Event.isPost] at hpost
      · simp at h1
    · exact List.mem_singleton.1 h1
  induction k with
  | zero =>
    intro a d e ev hev
    simp [retryLoop] at hev
  | succ k ih =>
    intro a d e ev hev hpost
    rcases retryLoop_trace c net jsonData k a d e with hstop | ⟨e1, hgo⟩
    · rw [hstop] at hev
      exact hiter a d ev hev hpost
    · rw [hgo] at hev
      rcases List.mem_append.1 hev with h1 | h1
      · exact hiter a d ev h1 hpost
      · exact ih (a + 1) _ e1 ev h1 hpost

/-- With a non-empty prompt and a non-negative budget the trace starts with
the post of the marshalled request. -/
theorem head_is_post (c : Client) (net : Network) (p : String)
    (dom : Option DomainType) (lvl : Option ExpertiseLevel) (fmt : Option OutputFormat)
    (best ex : Option Bool) (hp : p ≠ "") (hm : 0 ≤ c.RetryConfig.MaxRetries) :
    (c.RefinePromptWithOptions net p dom lvl fmt best ex).2.head?
      = some (Event.post (c.BaseURL ++ "/refine-prompt") "application/json"
          (PromptRequest.Marshal ⟨p, dom, lvl, fmt, best, ex⟩)) := by
  rw [run_eq_retryLoop c net p dom lvl fmt best ex hp]
  obtain ⟨k, hk⟩ : ∃ k, (c.RetryConfig.MaxRetries + 1).toNat = k + 1 :=
    ⟨(c.RetryConfig.MaxRetries + 1).toNat - 1, by omega⟩
  rw [hk]
  rcases retryLoop_trace c net (PromptRequest.Marshal ⟨p, dom, lvl, fmt, best, ex⟩) k 0
    c.RetryConfig.RetryDelay none with hstop | ⟨e1, hgo⟩
  · rw [hstop]
    simp [iterationEvents]
  · rw [hgo]
    simp [iterationEvents]

/-! ## The outcomes of the loop -/

/-- An attempt that is not retried is a response with status 200 or 4xx. -/
theorem not_retryable_cases (r : PostResult) (h : ¬ r.retryable) :
    ∃ resp, r = .response resp
      ∧ (resp.StatusCode = 200 ∨ (resp.StatusCode ≥ 400 ∧ resp.StatusCode < 500)) := by
  cases r with
  | error cause => exact absurd trivial h
  | response resp =>
    refine ⟨resp, rfl, ?_⟩
    by_cases h200 : resp.StatusCode = 200
    · exact Or.inl h200
    · right
      by_contra h4
      exact h ⟨h200, h4⟩

/-- The loop returns a response and no error, or no response and one of its
three errors. -/
theorem retryLoop_shape (c : Client) (net : Network) (jsonData : JSON) (k : Nat) :
    ∀ (a : Nat) (d : Duration) (e : Option AttemptError),
      (∃ r, (retryLoop c net jsonData k a d e).1 = (some r, none))
        ∨ (∃ cause, (retryLoop c net jsonData k a d e).1 = (none, some (Error.decoding cause)))
        ∨ (∃ s, (retryLoop c net jsonData k a d e).1 = (none, some (Error.clientStatus s)))
        ∨ (∃ lastErr, (retryLoop c net jsonData k a d e).1
            = (none, some (Error.maxRetriesExceeded lastErr))) := by
  induction k with
  | zero =>
    intro a d e
    exact Or.inr (Or.inr (Or.inr ⟨e, rfl⟩))
  | succ k ih =>
    intro a d e
    by_cases hr : (net a (c.BaseURL ++ "/refine-prompt") "application/json" jsonData).retryable
    · rw [retryLoop_retry c net jsonData k a d e hr]
      exact ih (a + 1) _ _
    · obtain ⟨resp, hresp, hs⟩ := not_retryable_cases _ hr
      rcases hs with h200 | h4
      · rw [retryLoop_ok c net jsonData k a d e resp hresp h200]
        cases hdec : PromptResponse.Decode resp.Body with
        | error cause => exact Or.inr (Or.inl ⟨cause, rfl⟩)
        | ok result => exact Or.inl ⟨result, rfl⟩
      · rw [retryLoop_clientError c net jsonData k a d e resp hresp h4]
        exact Or.inr (Or.inr (Or.inl ⟨resp.StatusCode, rfl⟩))

/-- A call returns either a response and no error, or no response and an error. -/
theorem result_shape (c : Client) (net : Network) (p : String)
    (dom : Option DomainType) (lvl : Option ExpertiseLevel) (fmt : Option OutputFormat)
    (best ex : Option Bool) :
    (∃ r, (c.RefinePromptWithOptions net p dom lvl fmt best ex).1 = (some r, none))
      ∨ (∃ e, (c.RefinePromptWithOptions net p dom lvl fmt best ex).1 = (none, some e)) := by
  by_cases hp : p = ""
  · subst hp
    exact Or.inr ⟨Error.emptyPrompt, by simp [Client.RefinePromptWithOptions]⟩
  · rw [run_eq_retryLoop c net p dom lvl fmt best ex hp]
    rcases retryLoop_shape c net (PromptRequest.Marshal ⟨p, dom, lvl, fmt, best, ex⟩)
      (c.RetryConfig.MaxRetries + 1).toNat 0 c.RetryConfig.RetryDelay none
      with ⟨r, h⟩ | ⟨cause, h⟩ | ⟨s, h⟩ | ⟨le, h⟩
    · exact Or.inl ⟨r, h⟩
    · exact Or.inr ⟨_, h⟩
    · exact Or.inr ⟨_, h⟩
    · exact Or.inr ⟨_, h⟩

/-- The loop makes at most as many attempts as it has iterations left. -/
theorem attempts_retryLoop_le (c : Client) (net : Network) (jsonData : JSON) (k : Nat) :
    ∀ (a : Nat) (d : Duration) (e : Option AttemptError),
      attempts (retryLoop c net jsonData k a d e).2 ≤ k := by
  induction k with
  | zero =>
    intro a d e
    simp [retryLoop, attempts]
  | succ k ih =>
    intro a d e
    rcases retryLoop_trace c net jsonData k a d e with hstop | ⟨e1, hgo⟩
    · rw [hstop, attempts_iterationEvents]
      omega
    · rw [hgo, attempts_append, attempts_iterationEvents]
      have := ih (a + 1) (delayAfterHead c a d) e1
      omega

/-- The loop with an iteration left makes at least one attempt. -/
theorem attempts_retryLoop_pos (c : Client) (net : Network) (jsonData : JSON) (k a : Nat)
    (d : Duration) (e : Option AttemptError) :
    1 ≤ attempts (retryLoop c net jsonData (k + 1) a d e).2 := by
  rcases retryLoop_trace c net jsonData k a d e with hstop | ⟨e1, hgo⟩
  · rw [hstop, attempts_iterationEvents]
  · rw [hgo, attempts_append, attempts_iterationEvents]
    omega

/-- When the loop ends with "max retries exceeded", every iteration was made
and retried, and the wrapped error is the one of the last iteration (the
incoming `lastErr` when there was no iteration). -/
theorem retryLoop_exhausted (c : Client) (net : Network) (jsonData : JSON) (k : Nat) :
    ∀ (a : Nat) (d : Duration) (e lastErr : Option AttemptError),
      (retryLoop c net jsonData k a d e).1.2 = some (Error.maxRetriesExceeded lastErr) →
      attempts (retryLoop c net jsonData k a d e).2 = k
        ∧ (∀ j, j < k →
            (net (a + j) (c.BaseURL ++ "/refine-prompt") "application/json" jsonData).retryable)
        ∧ lastErr = (if k = 0 then e else
            some (attemptError
              (net (a + k - 1) (c.BaseURL ++ "/refine-prompt") "application/json" jsonData)
              (a + k))) := by
  induction k with
  | zero =>
    intro a d e lastErr h
    simp only [retryLoop, Option.some.injEq, Error.maxRetriesExceeded.injEq] at h
    exact ⟨rfl, fun j hj => absurd hj (Nat.not_lt_zero j), by rw [if_pos rfl]; exact h.symm⟩
  | succ k ih =>
    intro a d e lastErr h
    by_cases hr : (net a (c.BaseURL ++ "/refine-prompt") "application/json" jsonData).retryable
    · rw [retryLoop_retry c net jsonData k a d e hr] at h ⊢
      rw [after_fst] at h
      obtain ⟨hat, hall, hle⟩ := ih (a + 1) _ _ lastErr h
      refine ⟨?_, ?_, ?_⟩
      · rw [attempts_after, attempts_iterationEvents, hat]
        omega
      · intro j hj
        cases j with
        | zero => exact hr
        | succ j =>
          have := hall j (by omega)
          rwa [show a + 1 + j = a + (j + 1) by omega] at this
      · rw [if_neg (Nat.succ_ne_zero k)]
        rw [hle]
        by_cases hk : k = 0
        · subst hk
          simp
        · rw [if_neg hk, show a + 1 + k - 1 = a + (k + 1) - 1 by omega,
            show a + 1 + k = a + (k + 1) by omega]
    · obtain ⟨resp, hresp, hs⟩ := not_retryable_cases _ hr
      rcases hs with h200 | h4
      · rw [retryLoop_ok c net jsonData k a d e resp hresp h200] at h
        cases hdec : PromptResponse.Decode resp.Body with
        | error cause => rw [hdec] at h; simp at h
        | ok result => rw [hdec] at h; simp at h
      · rw [retryLoop_clientError c net jsonData k a d e resp hresp h4] at h
        simp at h

/-- Two attempt errors with different attempt numbers are different. -/
theorem attemptError_number (r1 r2 : PostResult) (n1 n2 : Nat)
    (h : attemptError r1 n1 = attemptError r2 n2) : n1 = n2 := by
  cases r1 <;> cases r2 <;> simp [attemptError] at h <;> omega

/-! ## Go strings -/

/-- The JSON text of a string that is valid UTF-8 is the string itself. -/
theorem toJSONText_ofString (s : String) : (GoString.ofString s).toJSONText = s := by
  unfold GoString.toJSONText GoString.ofString
  rw [List.map_map]
  have h : ((fun r => match r with
      | GoRune.char c => c
      | GoRune.invalid _ => RuneError) ∘ GoRune.char) = id := by
    funext c
    rfl
  rw [h, List.map_id]

/-- Only the empty text has the empty Go string. -/
theorem ofString_eq_nil (s : String) : GoString.ofString s = [] ↔ s = "" := by
  unfold GoString.ofString
  rw [List.map_eq_nil_iff]
  constructor
  · intro h
    cases s with
    | mk data =>
      simp only at h
      rw [h]
  · intro h
    rw [h]

/-- A call with a non-empty Go string as prompt is the retry loop on the
marshalled request. -/
theorem runBytes_eq_retryLoop (c : Client) (net : Network) (p : GoString)
    (dom lvl fmt : Option GoString) (best ex : Option Bool) (hp : p ≠ []) :
    c.RefinePromptWithOptionsBytes net p dom lvl fmt best ex =
      retryLoop c net (GoPromptRequest.Marshal ⟨p, dom, lvl, fmt, best, ex⟩)
        (c.RetryConfig.MaxRetries + 1).toNat 0 c.RetryConfig.RetryDelay none := by
  simp [Client.RefinePromptWithOptionsBytes, hp]

/-- On a prompt and options that are valid UTF-8 the function on Go strings
is the function on texts. -/
theorem refineBytes_ofString (c : Client) (net : Network) (p : String)
    (dom : Option DomainType) (lvl : Option ExpertiseLevel) (fmt : Option OutputFormat)
    (best ex : Option Bool) :
    c.RefinePromptWithOptionsBytes net (GoString.ofString p) (dom.map GoString.ofString)
        (lvl.map GoString.ofString) (fmt.map GoString.ofString) best ex
      = c.RefinePromptWithOptions net p dom lvl fmt best ex := by
  have hopt : ∀ o : Option String,
      (o.map GoString.ofString).map GoString.toJSONText = o := by
    intro o
    cases o with
    | none => rfl
    | some s => simp [toJSONText_ofString]
  by_cases hp : p = ""
  · subst hp
    simp [Client.RefinePromptWithOptionsBytes, Client.RefinePromptWithOptions, GoString.ofString]
  · have hp2 : GoString.ofString p ≠ [] := fun h => hp ((ofString_eq_nil p).1 h)
    rw [runBytes_eq_retryLoop c net _ _ _ _ best ex hp2,
      run_eq_retryLoop c net p dom lvl fmt best ex hp]
    unfold GoPromptRequest.Marshal
    simp only [toJSONText_ofString, hopt]

/-- The loop with an iteration left starts, at attempt 0, with the post. -/
theorem retryLoop_head (c : Client) (net : Network) (jsonData : JSON) (k : Nat)
    (d : Duration) (e : Option AttemptError) :
    (retryLoop c net jsonData (k + 1) 0 d e).2.head?
      = some (Event.post (c.BaseURL ++ "/refine-prompt") "application/json" jsonData) := by
  rcases retryLoop_trace c net jsonData k 0 d e with hstop | ⟨e1, hgo⟩
  · rw [hstop]
    simp [iterationEvents]
  · rw [hgo]
    simp [iterationEvents]

/-! ## The claims -/

/-- C1: for a non-empty prompt and `MaxRetries = m ≥ 0`, when every attempt
within the budget receives a retryable HTTP status, exactly `m + 1` HTTP
attempts are made and the call returns no response and a "max retries
exceeded" error. -/
theorem maxRetries_exhausted (c : Client) (net : Network) (p : String)
    (dom : Option DomainType) (lvl : Option ExpertiseLevel) (fmt : Option OutputFormat)
    (best ex : Option Bool) (hp : p ≠ "") (hm : 0 ≤ c.RetryConfig.MaxRetries)
    (hretry : ∀ n : Nat, (n : Int) ≤ c.RetryConfig.MaxRetries →
      ∃ resp, c.received net ⟨p, dom, lvl, fmt, best, ex⟩ n = .response resp
        ∧ retryableStatus resp.StatusCode) :
    (attempts (c.RefinePromptWithOptions net p dom lvl fmt best ex).2 : Int)
        = c.RetryConfig.MaxRetries + 1
      ∧ (c.RefinePromptWithOptions net p dom lvl fmt best ex).1.1 = none
      ∧ ∃ lastErr, (c.RefinePromptWithOptions net p dom lvl fmt best ex).1.2
          = some (Error.maxRetriesExceeded lastErr) := by
  obtain ⟨es, d1, e1, hes, hat⟩ := retryLoop_skip c net
    (PromptRequest.Marshal ⟨p, dom, lvl, fmt, best, ex⟩) (c.RetryConfig.MaxRetries + 1).toNat 0 0
    c.RetryConfig.RetryDelay none
    (fun j hj => by
      obtain ⟨resp, hr, hs⟩ := hretry j (by omega)
      simp only [Client.received] at hr
      rw [Nat.zero_add, hr]
      exact hs)
  rw [run_eq_retryLoop c net p dom lvl fmt best ex hp]
  rw [Nat.add_zero] at hes
  rw [hes]
  refine ⟨?_, ?_, ?_⟩
  · rw [attempts_after, hat]
    simp only [retryLoop, attempts_nil, Nat.add_zero]
    omega
  · simp [after, retryLoop]
  · exact ⟨e1, by simp [after, retryLoop]⟩

/-- C1, instance: with `MaxRetries = 2` and a server that always answers 500
there are exactly 3 attempts. -/
theorem maxRetries_exhausted_witness :
    "test prompt" ≠ "" ∧ 0 ≤ retryTestClient.RetryConfig.MaxRetries
      ∧ (∀ n : Nat, (n : Int) ≤ retryTestClient.RetryConfig.MaxRetries →
          ∃ resp, retryTestClient.received (alwaysStatus 500)
              ⟨"test prompt", none, none, none, none, none⟩ n = .response resp
            ∧ retryableStatus resp.StatusCode)
      ∧ (attempts (retryTestClient.RefinePromptWithOptions (alwaysStatus 500) "test prompt"
            none none none none none).2 : Int) = 2 + 1
      ∧ (retryTestClient.RefinePromptWithOptions (alwaysStatus 500) "test prompt"
            none none none none none).1.1 = none
      ∧ ∃ lastErr, (retryTestClient.RefinePromptWithOptions (alwaysStatus 500) "test prompt"
            none none none none none).1.2 = some (Error.maxRetriesExceeded lastErr) :=
  ⟨by decide, by decide, fun _ _ => ⟨⟨500, none⟩, rfl, by decide⟩,
    maxRetries_exhausted retryTestClient (alwaysStatus 500) "test prompt" none none none none none
      (by decide) (by decide) (fun _ _ => ⟨⟨500, none⟩, rfl, by decide⟩)⟩

/-- C2: for a non-empty prompt, when attempt `k` (within the budget, every
earlier attempt having been retried) receives a status `s` with
`400 ≤ s < 500`, the call ends there: it returns no response and the client
error carrying `s`, which is not a "max retries exceeded" error, and exactly
`k + 1` attempts have been made. -/
theorem clientError_terminal (c : Client) (net : Network) (p : String)
    (dom : Option DomainType) (lvl : Option ExpertiseLevel) (fmt : Option OutputFormat)
    (best ex : Option Bool) (k : Nat) (resp : Response) (hp : p ≠ "")
    (hk : (k : Int) ≤ c.RetryConfig.MaxRetries)
    (hprev : ∀ j, j < k → (c.received net ⟨p, dom, lvl, fmt, best, ex⟩ j).retryable)
    (hrecv : c.received net ⟨p, dom, lvl, fmt, best, ex⟩ k = .response resp)
    (hs : resp.StatusCode ≥ 400 ∧ resp.StatusCode < 500) :
    (c.RefinePromptWithOptions net p dom lvl fmt best ex).1
        = (none, some (Error.clientStatus resp.StatusCode))
      ∧ attempts (c.RefinePromptWithOptions net p dom lvl fmt best ex).2 = k + 1
      ∧ ∀ lastErr, (c.RefinePromptWithOptions net p dom lvl fmt best ex).1.2
          ≠ some (Error.maxRetriesExceeded lastErr) := by
  obtain ⟨K, es, d1, e1, hes, hat⟩ := run_reaches c net p dom lvl fmt best ex k hp hk hprev
  rw [hes, retryLoop_clientError c net _ K k d1 e1 resp hrecv hs]
  refine ⟨rfl, ?_, ?_⟩
  · rw [attempts_after, hat]
    simp [attempts_iterationEvents]
  · intro lastErr
    simp [after]

/-- C2, instance: a server that answers 400 sees exactly one attempt and the
caller gets the client error carrying 400. -/
theorem clientError_terminal_witness :
    "test prompt" ≠ "" ∧ ((0 : Nat) : Int) ≤ testClient.RetryConfig.MaxRetries
      ∧ (∀ j, j < 0 → (testClient.received (alwaysStatus 400)
            ⟨"test prompt", none, none, none, none, none⟩ j).retryable)
      ∧ testClient.received (alwaysStatus 400) ⟨"test prompt", none, none, none, none, none⟩ 0
          = .response ⟨400, none⟩
      ∧ ((400 : Int) ≥ 400 ∧ (400 : Int) < 500)
      ∧ (testClient.RefinePromptWithOptions (alwaysStatus 400) "test prompt"
            none none none none none).1 = (none, some (Error.clientStatus 400))
      ∧ attempts (testClient.RefinePromptWithOptions (alwaysStatus 400) "test prompt"
            none none none none none).2 = 0 + 1
      ∧ ∀ lastErr, (testClient.RefinePromptWithOptions (alwaysStatus 400) "test prompt"
            none none none none none).1.2 ≠ some (Error.maxRetriesExceeded lastErr) :=
  ⟨by decide, by decide, fun _ hj => absurd hj (Nat.not_lt_zero _), rfl, by decide,
    clientError_terminal testClient (alwaysStatus 400) "test prompt" none none none none none
      0 ⟨400, none⟩ (by decide) (by decide) (fun _ hj => absurd hj (Nat.not_lt_zero _)) rfl
      (by decide)⟩

/-- C3: for a non-empty prompt, when attempt `k` (within the budget) is the
first attempt that is not retried and it receives HTTP 200 with a body that
decodes to the `PromptResponse` `r`, the call returns exactly `r` and no
error, after exactly `k + 1` attempts. -/
theorem success_returns_decoded (c : Client) (net : Network) (p : String)
    (dom : Option DomainType) (lvl : Option ExpertiseLevel) (fmt : Option OutputFormat)
    (best ex : Option Bool) (k : Nat) (resp : Response) (r : PromptResponse) (hp : p ≠ "")
    (hk : (k : Int) ≤ c.RetryConfig.MaxRetries)
    (hprev : ∀ j, j < k → (c.received net ⟨p, dom, lvl, fmt, best, ex⟩ j).retryable)
    (hrecv : c.received net ⟨p, dom, lvl, fmt, best, ex⟩ k = .response resp)
    (hs : resp.StatusCode = 200) (hdec : PromptResponse.Decode resp.Body = .ok r) :
    (c.RefinePromptWithOptions net p dom lvl fmt best ex).1 = (some r, none)
      ∧ attempts (c.RefinePromptWithOptions net p dom lvl fmt best ex).2 = k + 1 := by
  obtain ⟨K, es, d1, e1, hes, hat⟩ := run_reaches c net p dom lvl fmt best ex k hp hk hprev
  rw [hes, retryLoop_ok c net _ K k d1 e1 resp hrecv hs, hdec]
  refine ⟨rfl, ?_⟩
  rw [attempts_after, hat]
  simp [attempts_iterationEvents]

/-- C3, instance: the exchange of `TestRefinePromptWithOptions`.  The 200
body with `refined_prompt` "Enhanced: test prompt", two topics and two
references comes back as that refined prompt, two detected topics and two
references, after one attempt. -/
theorem success_returns_decoded_witness :
    "test prompt" ≠ "" ∧ ((0 : Nat) : Int) ≤ testClient.RetryConfig.MaxRetries
      ∧ (∀ j, j < 0 → (testClient.received enhancingServer
            ⟨"test prompt", some DomainInfrastructure, some ExpertiseExpert,
              some OutputFormatTutorial, some true, some true⟩ j).retryable)
      ∧ testClient.received enhancingServer
            ⟨"test prompt", some DomainInfrastructure, some ExpertiseExpert,
              some OutputFormatTutorial, some true, some true⟩ 0
          = .response ⟨200, some (.obj
              [("refined_prompt", .str "Enhanced: test prompt"),
               ("detected_topics", .arr [.str "Topic1", .str "Topic2"]),
               ("recommended_references", .arr [.str "Ref1", .str "Ref2"])])⟩
      ∧ (200 : Int) = 200
      ∧ PromptResponse.Decode (some (.obj
              [("refined_prompt", .str "Enhanced: test prompt"),
               ("detected_topics", .arr [.str "Topic1", .str "Topic2"]),
               ("recommended_references", .arr [.str "Ref1", .str "Ref2"])]))
          = .ok ⟨"Enhanced: test prompt", ["Topic1", "Topic2"], ["Ref1", "Ref2"]⟩
      ∧ (testClient.RefinePromptWithOptions enhancingServer "test prompt"
            (some DomainInfrastructure) (some ExpertiseExpert) (some OutputFormatTutorial)
            (some true) (some true)).1
          = (some ⟨"Enhanced: test prompt", ["Topic1", "Topic2"], ["Ref1", "Ref2"]⟩, none)
      ∧ attempts (testClient.RefinePromptWithOptions enhancingServer "test prompt"
            (some DomainInfrastructure) (some ExpertiseExpert) (some OutputFormatTutorial)
            (some true) (some true)).2 = 0 + 1 :=
  ⟨by decide, by decide, fun _ hj => absurd hj (Nat.not_lt_zero _), rfl, rfl, rfl,
    success_returns_decoded testClient enhancingServer "test prompt"
      (some DomainInfrastructure) (some ExpertiseExpert) (some OutputFormatTutorial)
      (some true) (some true) 0 _ _ (by decide) (by decide)
      (fun _ hj => absurd hj (Nat.not_lt_zero _)) rfl rfl rfl⟩

/-- C4: with the empty string as prompt, whatever the client, its retry
configuration, the network and the optional parameters, the call returns no
response and the "lazy prompt cannot be empty" error, and its trace is empty:
no HTTP attempt is made and no delay is slept. -/
theorem empty_prompt_rejected (c : Client) (net : Network)
    (dom : Option DomainType) (lvl : Option ExpertiseLevel) (fmt : Option OutputFormat)
    (best ex : Option Bool) :
    (c.RefinePromptWithOptions net "" dom lvl fmt best ex).1 = (none, some Error.emptyPrompt)
      ∧ (c.RefinePromptWithOptions net "" dom lvl fmt best ex).2 = []
      ∧ attempts (c.RefinePromptWithOptions net "" dom lvl fmt best ex).2 = 0
      ∧ sleeps (c.RefinePromptWithOptions net "" dom lvl fmt best ex).2 = [] := by
  simp [Client.RefinePromptWithOptions, attempts, sleeps]

/-- C5: for a non-empty prompt, when attempt `k` (within the budget, every
earlier attempt having been retried) receives HTTP 200 with a body that does
not decode to a `PromptResponse`, the call ends there with the decoding
error, which is neither a client error nor "max retries exceeded", and
exactly `k + 1` attempts have been made, also when `k` is below `MaxRetries`. -/
theorem decode_failure_terminal (c : Client) (net : Network) (p : String)
    (dom : Option DomainType) (lvl : Option ExpertiseLevel) (fmt : Option OutputFormat)
    (best ex : Option Bool) (k : Nat) (resp : Response) (cause : String) (hp : p ≠ "")
    (hk : (k : Int) ≤ c.RetryConfig.MaxRetries)
    (hprev : ∀ j, j < k → (c.received net ⟨p, dom, lvl, fmt, best, ex⟩ j).retryable)
    (hrecv : c.received net ⟨p, dom, lvl, fmt, best, ex⟩ k = .response resp)
    (hs : resp.StatusCode = 200) (hdec : PromptResponse.Decode resp.Body = .error cause) :
    (c.RefinePromptWithOptions net p dom lvl fmt best ex).1
        = (none, some (Error.decoding cause))
      ∧ attempts (c.RefinePromptWithOptions net p dom lvl fmt best ex).2 = k + 1
      ∧ (∀ s, (c.RefinePromptWithOptions net p dom lvl fmt best ex).1.2
          ≠ some (Error.clientStatus s))
      ∧ ∀ lastErr, (c.RefinePromptWithOptions net p dom lvl fmt best ex).1.2
          ≠ some (Error.maxRetriesExceeded lastErr) := by
  obtain ⟨K, es, d1, e1, hes, hat⟩ := run_reaches c net p dom lvl fmt best ex k hp hk hprev
  rw [hes, retryLoop_ok c net _ K k d1 e1 resp hrecv hs, hdec]
  refine ⟨rfl, ?_, ?_, ?_⟩
  · rw [attempts_after, hat]
    simp [attempts_iterationEvents]
  · intro s
    simp [after]
  · intro lastErr
    simp [after]

/-- C5, instance: with the default budget of 3 retries, a first attempt that
fails at the transport level and a second one answered by 200 with bytes that
are not JSON: the call ends after 2 attempts with the decoding error. -/
theorem decode_failure_terminal_witness :
    "test prompt" ≠ "" ∧ ((1 : Nat) : Int) ≤ testClient.RetryConfig.MaxRetries
      ∧ (∀ j, j < 1 → (testClient.received garbageServer
            ⟨"test prompt", none, none, none, none, none⟩ j).retryable)
      ∧ testClient.received garbageServer ⟨"test prompt", none, none, none, none, none⟩ 1
          = .response ⟨200, none⟩
      ∧ (200 : Int) = 200
      ∧ PromptResponse.Decode none
          = .error "invalid character or unexpected end of JSON input"
      ∧ (testClient.RefinePromptWithOptions garbageServer "test prompt"
            none none none none none).1
          = (none, some (Error.decoding "invalid character or unexpected end of JSON input"))
      ∧ attempts (testClient.RefinePromptWithOptions garbageServer "test prompt"
            none none none none none).2 = 1 + 1
      ∧ (∀ s, (testClient.RefinePromptWithOptions garbageServer "test prompt"
            none none none none none).1.2 ≠ some (Error.clientStatus s))
      ∧ ∀ lastErr, (testClient.RefinePromptWithOptions garbageServer "test prompt"
            none none none none none).1.2 ≠ some (Error.maxRetriesExceeded lastErr) :=
  ⟨by decide, by decide,
    fun j hj => by
      have hj0 : j = 0 := by omega
      subst hj0
      trivial,
    rfl, rfl, rfl,
    decode_failure_terminal testClient garbageServer "test prompt" none none none none none
      1 ⟨200, none⟩ _ (by decide) (by decide)
      (fun j hj => by
        have hj0 : j = 0 := by omega
        subst hj0
        trivial)
      rfl rfl rfl⟩

/-- C6 (as stated, refuted).  Three runs against a server that always
answers 500.  With `RetryDelay = 10s`, `MaxDelay = 2s` and multiplier 2 the
delay slept before attempt 1 is 10s, not `min(10s * 2^0, 2s) = 2s`.  With
`RetryDelay = 1ns` and multiplier 1.5 the delay before attempt 2 is 1ns, not
`min(1 * 1.5, 2s)`.  With `RetryDelay = 2^53 + 1` ns and multiplier 1 the
delay before attempt 2 is `2^53` ns, not `min((2^53 + 1) * 1, 2^62)`. -/
theorem first_delay_unclamped :
    (1 ≤ slowStartClient.RetryConfig.Multiplier.toRat
      ∧ 1 < attempts (slowStartClient.RefinePromptWithOptions (alwaysStatus 500) "test prompt"
          none none none none none).2
      ∧ delayBefore (slowStartClient.RefinePromptWithOptions (alwaysStatus 500) "test prompt"
          none none none none none).2 1 = some (10 * Second)
      ∧ ((10 * Second : Int) : ℚ)
          ≠ min ((slowStartClient.RetryConfig.RetryDelay : ℚ)
              * slowStartClient.RetryConfig.Multiplier.toRat ^ (1 - 1))
            (slowStartClient.RetryConfig.MaxDelay : ℚ))
    ∧ (1 ≤ fractionalClient.RetryConfig.Multiplier.toRat
      ∧ 2 < attempts (fractionalClient.RefinePromptWithOptions (alwaysStatus 500) "test prompt"
          none none none none none).2
      ∧ delayBefore (fractionalClient.RefinePromptWithOptions (alwaysStatus 500) "test prompt"
          none none none none none).2 2 = some 1
      ∧ ((1 : Int) : ℚ)
          ≠ min ((fractionalClient.RetryConfig.RetryDelay : ℚ)
              * fractionalClient.RetryConfig.Multiplier.toRat ^ (2 - 1))
            (fractionalClient.RetryConfig.MaxDelay : ℚ))
    ∧ (1 ≤ hugeDelayClient.RetryConfig.Multiplier.toRat
      ∧ 2 < attempts (hugeDelayClient.RefinePromptWithOptions (alwaysStatus 500) "test prompt"
          none none none none none).2
      ∧ delayBefore (hugeDelayClient.RefinePromptWithOptions (alwaysStatus 500) "test prompt"
          none none none none none).2 2 = some (2 ^ 53)
      ∧ (((2 : Int) ^ 53 : Int) : ℚ)
          ≠ min ((hugeDelayClient.RetryConfig.RetryDelay : ℚ)
              * hugeDelayClient.RetryConfig.Multiplier.toRat ^ (2 - 1))
            (hugeDelayClient.RetryConfig.MaxDelay : ℚ)) := by
  refine ⟨⟨?_, by decide, by decide, ?_⟩, ⟨?_, by decide, by decide, ?_⟩,
    ⟨?_, by decide, by decide, ?_⟩⟩
  · norm_num [slowStartClient, Client.WithRetryConfig, Float64.toRat, Float64.ofInt]
  · norm_num [slowStartClient, Client.WithRetryConfig, Float64.toRat, Float64.ofInt, Second]
  · norm_num [fractionalClient, Client.WithRetryConfig, Float64.toRat]
  · norm_num [fractionalClient, Client.WithRetryConfig, Float64.toRat, Second]
  · norm_num [hugeDelayClient, Client.WithRetryConfig, Float64.toRat, Float64.ofInt]
  · norm_num [hugeDelayClient, Client.WithRetryConfig, Float64.toRat, Float64.ofInt]

/-- C6 (amended): nothing is slept before attempt 0; and for a retry
configuration with `0 ≤ RetryDelay ≤ MaxDelay`, `Multiplier ≥ 1` and
`MaxDelay * Multiplier < 2^53` ns, the delay slept immediately before every
attempt `n ≥ 1` that is reached equals
`min(RetryDelay * Multiplier^(n-1), MaxDelay)`, provided the products
`RetryDelay * Multiplier^i` for `i < n` are whole numbers of nanoseconds. -/
theorem backoff_closed_form (c : Client) (net : Network) (p : String)
    (dom : Option DomainType) (lvl : Option ExpertiseLevel) (fmt : Option OutputFormat)
    (best ex : Option Bool) :
    (∀ d, (c.RefinePromptWithOptions net p dom lvl fmt best ex).2.head? ≠ some (Event.sleep d))
      ∧ delayBefore (c.RefinePromptWithOptions net p dom lvl fmt best ex).2 0 = none
      ∧ (0 ≤ c.RetryConfig.RetryDelay → c.RetryConfig.RetryDelay ≤ c.RetryConfig.MaxDelay →
          1 ≤ c.RetryConfig.Multiplier.toRat →
          (c.RetryConfig.MaxDelay : ℚ) * c.RetryConfig.Multiplier.toRat < 2 ^ 53 →
          ∀ n, 1 ≤ n → n < attempts (c.RefinePromptWithOptions net p dom lvl fmt best ex).2 →
            (∀ i, i < n → ∃ z : Int,
              (z : ℚ) = (c.RetryConfig.RetryDelay : ℚ) * c.RetryConfig.Multiplier.toRat ^ i) →
            ∃ d, delayBefore (c.RefinePromptWithOptions net p dom lvl fmt best ex).2 n = some d
              ∧ (d : ℚ) = min ((c.RetryConfig.RetryDelay : ℚ)
                    * c.RetryConfig.Multiplier.toRat ^ (n - 1))
                  (c.RetryConfig.MaxDelay : ℚ)) := by
  refine ⟨fun d => head_not_sleep c net p dom lvl fmt best ex d,
    delayBefore_zero c net p dom lvl fmt best ex, ?_⟩
  intro h0 hd hm hr n hn1 hn hw
  refine ⟨delayAt c.RetryConfig (n - 1), ?_, ?_⟩
  · rw [delayBefore_run c net p dom lvl fmt best ex n hn, if_neg (by omega)]
  · exact delayAt_formula c.RetryConfig h0 hd hm hr (n - 1) (fun i hi => hw i (by omega))

/-- C6 (amended), instance: with 100ms, multiplier 2 and a cap of 2s, before
attempt 3 the client sleeps `min(100ms * 2^2, 2s)`. -/
theorem backoff_closed_form_witness :
    0 ≤ backoffClient.RetryConfig.RetryDelay
      ∧ backoffClient.RetryConfig.RetryDelay ≤ backoffClient.RetryConfig.MaxDelay
      ∧ 1 ≤ backoffClient.RetryConfig.Multiplier.toRat
      ∧ (backoffClient.RetryConfig.MaxDelay : ℚ) * backoffClient.RetryConfig.Multiplier.toRat
          < 2 ^ 53
      ∧ 1 ≤ 3
      ∧ 3 < attempts (backoffClient.RefinePromptWithOptions (alwaysStatus 500) "test prompt"
          none none none none none).2
      ∧ (∀ i, i < 3 → ∃ z : Int, (z : ℚ) = (backoffClient.RetryConfig.RetryDelay : ℚ)
          * backoffClient.RetryConfig.Multiplier.toRat ^ i)
      ∧ ∃ d, delayBefore (backoffClient.RefinePromptWithOptions (alwaysStatus 500) "test prompt"
            none none none none none).2 3 = some d
          ∧ (d : ℚ) = min ((backoffClient.RetryConfig.RetryDelay : ℚ)
                * backoffClient.RetryConfig.Multiplier.toRat ^ (3 - 1))
              (backoffClient.RetryConfig.MaxDelay : ℚ) :=
  have hm : backoffClient.RetryConfig.Multiplier.toRat = 2 := by
    norm_num [backoffClient, Client.WithRetryConfig, Float64.toRat, Float64.ofInt]
  have hw : ∀ i, i < 3 → ∃ z : Int, (z : ℚ) = (backoffClient.RetryConfig.RetryDelay : ℚ)
      * backoffClient.RetryConfig.Multiplier.toRat ^ i := fun i _ =>
    ⟨backoffClient.RetryConfig.RetryDelay * 2 ^ i, by rw [hm]; push_cast; rfl⟩
  have hr : (backoffClient.RetryConfig.MaxDelay : ℚ)
      * backoffClient.RetryConfig.Multiplier.toRat < 2 ^ 53 := by
    rw [hm]
    norm_num [backoffClient, Client.WithRetryConfig, Second]
  ⟨by decide, by decide, by rw [hm]; norm_num, hr, by decide, by decide, hw,
    (backoff_closed_form backoffClient (alwaysStatus 500) "test prompt"
      none none none none none).2.2 (by decide) (by decide) (by rw [hm]; norm_num) hr 3
      (by decide) (by decide) hw⟩

/-- C7: with `RetryDelay = 100ms`, multiplier 2.0 and `MaxDelay = 2s`, the
delays slept before attempts 1, 2, 3, 4, 5 (when reached) are 100ms, 200ms,
400ms, 800ms and 1.6s, and the delay before every attempt `n ≥ 6` that is
reached is exactly 2s. -/
theorem default_backoff_sequence (c : Client) (net : Network) (p : String)
    (dom : Option DomainType) (lvl : Option ExpertiseLevel) (fmt : Option OutputFormat)
    (best ex : Option Bool) (hR : c.RetryConfig.RetryDelay = 100 * Millisecond)
    (hM : c.RetryConfig.Multiplier.toRat = 2) (hX : c.RetryConfig.MaxDelay = 2 * Second) :
    (1 < attempts (c.RefinePromptWithOptions net p dom lvl fmt best ex).2 →
        delayBefore (c.RefinePromptWithOptions net p dom lvl fmt best ex).2 1
          = some (100 * Millisecond))
      ∧ (2 < attempts (c.RefinePromptWithOptions net p dom lvl fmt best ex).2 →
        delayBefore (c.RefinePromptWithOptions net p dom lvl fmt best ex).2 2
          = some (200 * Millisecond))
      ∧ (3 < attempts (c.RefinePromptWithOptions net p dom lvl fmt best ex).2 →
        delayBefore (c.RefinePromptWithOptions net p dom lvl fmt best ex).2 3
          = some (400 * Millisecond))
      ∧ (4 < attempts (c.RefinePromptWithOptions net p dom lvl fmt best ex).2 →
        delayBefore (c.RefinePromptWithOptions net p dom lvl fmt best ex).2 4
          = some (800 * Millisecond))
      ∧ (5 < attempts (c.RefinePromptWithOptions net p dom lvl fmt best ex).2 →
        delayBefore (c.RefinePromptWithOptions net p dom lvl fmt best ex).2 5
          = some (1600 * Millisecond))
      ∧ ∀ n, 6 ≤ n → n < attempts (c.RefinePromptWithOptions net p dom lvl fmt best ex).2 →
        delayBefore (c.RefinePromptWithOptions net p dom lvl fmt best ex).2 n
          = some (2 * Second) := by
  have h0 : 0 ≤ c.RetryConfig.RetryDelay := by rw [hR]; decide
  have hd : c.RetryConfig.RetryDelay ≤ c.RetryConfig.MaxDelay := by rw [hR, hX]; decide
  have hm : 1 ≤ c.RetryConfig.Multiplier.toRat := by rw [hM]; norm_num
  have hr : (c.RetryConfig.MaxDelay : ℚ) * c.RetryConfig.Multiplier.toRat < 2 ^ 53 := by
    rw [hM, hX]
    norm_num [Second]
  have hform : ∀ i, delayAt c.RetryConfig i = min (100000000 * 2 ^ i) 2000000000 := by
    intro i
    have h := delayAt_formula c.RetryConfig h0 hd hm hr i
      (fun j _ => ⟨c.RetryConfig.RetryDelay * 2 ^ j, by rw [hM]; push_cast; rfl⟩)
    rw [hM, hR, hX] at h
    have h2 : ((delayAt c.RetryConfig i : Int) : ℚ)
        = (((min (100000000 * 2 ^ i) 2000000000 : Int)) : ℚ) := by
      rw [h]
      norm_num [Millisecond, Second]
    exact_mod_cast h2
  have hrun : ∀ n, 1 ≤ n → n < attempts (c.RefinePromptWithOptions net p dom lvl fmt best ex).2 →
      delayBefore (c.RefinePromptWithOptions net p dom lvl fmt best ex).2 n
        = some (min (100000000 * 2 ^ (n - 1)) 2000000000) := by
    intro n hn1 hn
    rw [delayBefore_run c net p dom lvl fmt best ex n hn, if_neg (by omega), hform]
  refine ⟨fun h => ?_, fun h => ?_, fun h => ?_, fun h => ?_, fun h => ?_, fun n hn6 h => ?_⟩
  · rw [hrun 1 (by omega) h]; decide
  · rw [hrun 2 (by omega) h]; decide
  · rw [hrun 3 (by omega) h]; decide
  · rw [hrun 4 (by omega) h]; decide
  · rw [hrun 5 (by omega) h]; decide
  · rw [hrun n (by omega) h]
    obtain ⟨t, ht⟩ : ∃ t, n - 1 = 5 + t := ⟨n - 6, by omega⟩
    have hpow : (1 : Int) ≤ 2 ^ t := one_le_pow₀ (by norm_num)
    have hbig : (2000000000 : Int) ≤ 100000000 * 2 ^ (n - 1) := by
      rw [ht, pow_add]
      nlinarith
    rw [min_eq_right hbig]
    rfl

/-- C7, instance: a client with these delays and a budget of 7 retries
against a server that always answers 500 reaches attempts 1 to 7 and sleeps
100ms, 200ms, 400ms, 800ms, 1.6s, 2s and 2s. -/
theorem default_backoff_sequence_witness :
    backoffClient.RetryConfig.RetryDelay = 100 * Millisecond
      ∧ backoffClient.RetryConfig.Multiplier.toRat = 2
      ∧ backoffClient.RetryConfig.MaxDelay = 2 * Second
      ∧ attempts (backoffClient.RefinePromptWithOptions (alwaysStatus 500) "test prompt"
          none none none none none).2 = 8
      ∧ sleeps (backoffClient.RefinePromptWithOptions (alwaysStatus 500) "test prompt"
          none none none none none).2
        = [100 * Millisecond, 200 * Millisecond, 400 * Millisecond, 800 * Millisecond,
            1600 * Millisecond, 2 * Second, 2 * Second]
      ∧ delayBefore (backoffClient.RefinePromptWithOptions (alwaysStatus 500) "test prompt"
          none none none none none).2 5 = some (1600 * Millisecond)
      ∧ delayBefore (backoffClient.RefinePromptWithOptions (alwaysStatus 500) "test prompt"
          none none none none none).2 7 = some (2 * Second) :=
  have hM : backoffClient.RetryConfig.Multiplier.toRat = 2 := by
    norm_num [backoffClient, Client.WithRetryConfig, Float64.toRat, Float64.ofInt]
  ⟨rfl, hM, rfl, by decide, by decide,
    (default_backoff_sequence backoffClient (alwaysStatus 500) "test prompt"
      none none none none none rfl hM rfl).2.2.2.2.1 (by decide),
    (default_backoff_sequence backoffClient (alwaysStatus 500) "test prompt"
      none none none none none rfl hM rfl).2.2.2.2.2 7 (by decide) (by decide)⟩

/-- C8 (as stated, refuted).  Three runs against a server that always
answers 500, each with a multiplier of at least 1.  With `RetryDelay = 10s`
and `MaxDelay = 2s` the delays before attempts 1 and 2 are 10s and 2s: the
first is above `MaxDelay` and the sequence decreases.  With
`RetryDelay = -100ms` they are -100ms and -200ms.  With
`RetryDelay = 2^53 + 1` ns, multiplier 1 and `MaxDelay = 2^62` ns they are
`2^53 + 1` and `2^53`. -/
theorem delays_can_decrease :
    (1 ≤ slowStartClient.RetryConfig.Multiplier.toRat
      ∧ delayBefore (slowStartClient.RefinePromptWithOptions (alwaysStatus 500) "test prompt"
          none none none none none).2 1 = some (10 * Second)
      ∧ delayBefore (slowStartClient.RefinePromptWithOptions (alwaysStatus 500) "test prompt"
          none none none none none).2 2 = some (2 * Second)
      ∧ ¬ (10 * Second ≤ 2 * Second)
      ∧ ¬ (10 * Second ≤ slowStartClient.RetryConfig.MaxDelay))
    ∧ (1 ≤ negativeDelayClient.RetryConfig.Multiplier.toRat
      ∧ delayBefore (negativeDelayClient.RefinePromptWithOptions (alwaysStatus 500)
          "test prompt" none none none none none).2 1 = some (-(100 * Millisecond))
      ∧ delayBefore (negativeDelayClient.RefinePromptWithOptions (alwaysStatus 500)
          "test prompt" none none none none none).2 2 = some (-(200 * Millisecond))
      ∧ ¬ (-(100 * Millisecond) ≤ -(200 * Millisecond)))
    ∧ (1 ≤ hugeDelayClient.RetryConfig.Multiplier.toRat
      ∧ delayBefore (hugeDelayClient.RefinePromptWithOptions (alwaysStatus 500) "test prompt"
          none none none none none).2 1 = some (2 ^ 53 + 1)
      ∧ delayBefore (hugeDelayClient.RefinePromptWithOptions (alwaysStatus 500) "test prompt"
          none none none none none).2 2 = some (2 ^ 53)
      ∧ ¬ ((2 : Int) ^ 53 + 1 ≤ 2 ^ 53)) := by
  refine ⟨⟨?_, by decide, by decide, by decide, by decide⟩,
    ⟨?_, by decide, by decide, by decide⟩, ⟨?_, by decide, by decide, by decide⟩⟩
  · norm_num [slowStartClient, Client.WithRetryConfig, Float64.toRat, Float64.ofInt]
  · norm_num [negativeDelayClient, Client.WithRetryConfig, Float64.toRat, Float64.ofInt]
  · norm_num [hugeDelayClient, Client.WithRetryConfig, Float64.toRat, Float64.ofInt]

/-- C8 (amended): for a retry configuration with `Multiplier ≥ 1`,
`0 ≤ RetryDelay ≤ MaxDelay` and `MaxDelay * Multiplier < 2^53` ns, the delays
slept before the attempts 1, 2, 3, ... that are reached never decrease, and
each is at most `MaxDelay`. -/
theorem backoff_monotone_bounded (c : Client) (net : Network) (p : String)
    (dom : Option DomainType) (lvl : Option ExpertiseLevel) (fmt : Option OutputFormat)
    (best ex : Option Bool) (hm : 1 ≤ c.RetryConfig.Multiplier.toRat)
    (h0 : 0 ≤ c.RetryConfig.RetryDelay)
    (hd : c.RetryConfig.RetryDelay ≤ c.RetryConfig.MaxDelay)
    (hr : (c.RetryConfig.MaxDelay : ℚ) * c.RetryConfig.Multiplier.toRat < 2 ^ 53)
    (i j : Nat) (hi : 1 ≤ i) (hij : i ≤ j)
    (hj : j < attempts (c.RefinePromptWithOptions net p dom lvl fmt best ex).2) :
    ∃ di dj, delayBefore (c.RefinePromptWithOptions net p dom lvl fmt best ex).2 i = some di
      ∧ delayBefore (c.RefinePromptWithOptions net p dom lvl fmt best ex).2 j = some dj
      ∧ di ≤ dj ∧ dj ≤ c.RetryConfig.MaxDelay := by
  refine ⟨delayAt c.RetryConfig (i - 1), delayAt c.RetryConfig (j - 1), ?_, ?_, ?_, ?_⟩
  · rw [delayBefore_run c net p dom lvl fmt best ex i (by omega), if_neg (by omega)]
  · rw [delayBefore_run c net p dom lvl fmt best ex j hj, if_neg (by omega)]
  · exact delayAt_mono c.RetryConfig h0 hd hm hr (by omega)
  · exact (delayAt_bounds c.RetryConfig h0 hd hm hr (j - 1)).2.1

/-- C8 (amended), instance: the delays before attempts 2 and 6 of the
100ms / 2.0 / 2s client. -/
theorem backoff_monotone_bounded_witness :
    1 ≤ backoffClient.RetryConfig.Multiplier.toRat
      ∧ 0 ≤ backoffClient.RetryConfig.RetryDelay
      ∧ backoffClient.RetryConfig.RetryDelay ≤ backoffClient.RetryConfig.MaxDelay
      ∧ (backoffClient.RetryConfig.MaxDelay : ℚ) * backoffClient.RetryConfig.Multiplier.toRat
          < 2 ^ 53
      ∧ 1 ≤ 2 ∧ 2 ≤ 6
      ∧ 6 < attempts (backoffClient.RefinePromptWithOptions (alwaysStatus 500) "test prompt"
          none none none none none).2
      ∧ ∃ di dj, delayBefore (backoffClient.RefinePromptWithOptions (alwaysStatus 500)
            "test prompt" none none none none none).2 2 = some di
          ∧ delayBefore (backoffClient.RefinePromptWithOptions (alwaysStatus 500)
            "test prompt" none none none none none).2 6 = some dj
          ∧ di ≤ dj ∧ dj ≤ backoffClient.RetryConfig.MaxDelay :=
  have hM : backoffClient.RetryConfig.Multiplier.toRat = 2 := by
    norm_num [backoffClient, Client.WithRetryConfig, Float64.toRat, Float64.ofInt]
  have hr : (backoffClient.RetryConfig.MaxDelay : ℚ)
      * backoffClient.RetryConfig.Multiplier.toRat < 2 ^ 53 := by
    rw [hM]
    norm_num [backoffClient, Client.WithRetryConfig, Second]
  ⟨by rw [hM]; norm_num, by decide, by decide, hr, by decide, by decide, by decide,
    backoff_monotone_bounded backoffClient (alwaysStatus 500) "test prompt"
      none none none none none (by rw [hM]; norm_num) (by decide) (by decide) hr 2 6
      (by decide) (by decide) (by decide)⟩

/-- C9: for a non-empty prompt, every HTTP attempt of the call posts the
marshalled request (and with `MaxRetries ≥ 0` the call starts with that
post).  In it each of the five optional parameters that is set appears under
its wire name with exactly its value, `false` included, and each one that is
not set is absent; decoding it gives back the prompt and the same five
values; and turning a flag from `false` to absent changes it. -/
theorem optional_fields_serialized (c : Client) (net : Network) (p : String)
    (dom : Option DomainType) (lvl : Option ExpertiseLevel) (fmt : Option OutputFormat)
    (best ex : Option Bool) (hp : p ≠ "") :
    (∀ ev, ev ∈ (c.RefinePromptWithOptions net p dom lvl fmt best ex).2 → ev.isPost = true →
        ev = Event.post (c.BaseURL ++ "/refine-prompt") "application/json"
          (PromptRequest.Marshal ⟨p, dom, lvl, fmt, best, ex⟩))
      ∧ (0 ≤ c.RetryConfig.MaxRetries →
        (c.RefinePromptWithOptions net p dom lvl fmt best ex).2.head?
          = some (Event.post (c.BaseURL ++ "/refine-prompt") "application/json"
              (PromptRequest.Marshal ⟨p, dom, lvl, fmt, best, ex⟩)))
      ∧ (PromptRequest.Marshal ⟨p, dom, lvl, fmt, best, ex⟩).field "domain" = dom.map JSON.str
      ∧ (PromptRequest.Marshal ⟨p, dom, lvl, fmt, best, ex⟩).field "expertise_level"
          = lvl.map JSON.str
      ∧ (PromptRequest.Marshal ⟨p, dom, lvl, fmt, best, ex⟩).field "output_format"
          = fmt.map JSON.str
      ∧ (PromptRequest.Marshal ⟨p, dom, lvl, fmt, best, ex⟩).field "include_best_practices"
          = best.map JSON.bool
      ∧ (PromptRequest.Marshal ⟨p, dom, lvl, fmt, best, ex⟩).field "include_examples"
          = ex.map JSON.bool
      ∧ PromptRequest.Unmarshal (PromptRequest.Marshal ⟨p, dom, lvl, fmt, best, ex⟩)
          = .ok ⟨p, dom, lvl, fmt, best, ex⟩
      ∧ PromptRequest.Marshal ⟨p, dom, lvl, fmt, some false, ex⟩
          ≠ PromptRequest.Marshal ⟨p, dom, lvl, fmt, none, ex⟩
      ∧ PromptRequest.Marshal ⟨p, dom, lvl, fmt, best, some false⟩
          ≠ PromptRequest.Marshal ⟨p, dom, lvl, fmt, best, none⟩ := by
  obtain ⟨_, h1, h2, h3, h4, h5⟩ := marshal_fields ⟨p, dom, lvl, fmt, best, ex⟩
  refine ⟨?_, head_is_post c net p dom lvl fmt best ex hp, h1, h2, h3, h4, h5,
    unmarshal_marshal _, ?_, ?_⟩
  · intro ev hev hpost
    rw [run_eq_retryLoop c net p dom lvl fmt best ex hp] at hev
    exact posts_retryLoop c net _ _ 0 _ none ev hev hpost
  · intro h
    have h1 := (marshal_fields ⟨p, dom, lvl, fmt, some false, ex⟩).2.2.2.2.1
    have h2 := (marshal_fields ⟨p, dom, lvl, fmt, none, ex⟩).2.2.2.2.1
    rw [h, h2] at h1
    simp at h1
  · intro h
    have h1 := (marshal_fields ⟨p, dom, lvl, fmt, best, some false⟩).2.2.2.2.2
    have h2 := (marshal_fields ⟨p, dom, lvl, fmt, best, none⟩).2.2.2.2.2
    rw [h, h2] at h1
    simp at h1

/-- C9, instance: the request of `TestRefinePromptWithOptions` with
`includeExamples` set to `false`: the flag is on the wire as `false`, and the
body is what the client posts first. -/
theorem optional_fields_serialized_witness :
    "test prompt" ≠ ""
      ∧ 0 ≤ testClient.RetryConfig.MaxRetries
      ∧ (testClient.RefinePromptWithOptions enhancingServer "test prompt"
            (some DomainInfrastructure) (some ExpertiseExpert) (some OutputFormatTutorial)
            (some true) (some false)).2.head?
          = some (Event.post (testClient.BaseURL ++ "/refine-prompt") "application/json"
              (PromptRequest.Marshal ⟨"test prompt", some DomainInfrastructure,
                some ExpertiseExpert, some OutputFormatTutorial, some true, some false⟩))
      ∧ (PromptRequest.Marshal ⟨"test prompt", some DomainInfrastructure,
            some ExpertiseExpert, some OutputFormatTutorial, some true, some false⟩).field
            "include_examples" = (some false).map JSON.bool
      ∧ PromptRequest.Marshal ⟨"test prompt", some DomainInfrastructure,
            some ExpertiseExpert, some OutputFormatTutorial, some true, some false⟩
          = .obj [("lazy_prompt", .str "test prompt"), ("domain", .str "infrastructure"),
              ("expertise_level", .str "expert"), ("output_format", .str "tutorial"),
              ("include_best_practices", .bool true), ("include_examples", .bool false)] :=
  ⟨by decide, by decide,
    (optional_fields_serialized testClient enhancingServer "test prompt"
      (some DomainInfrastructure) (some ExpertiseExpert) (some OutputFormatTutorial)
      (some true) (some false) (by decide)).2.1 (by decide),
    (optional_fields_serialized testClient enhancingServer "test prompt"
      (some DomainInfrastructure) (some ExpertiseExpert) (some OutputFormatTutorial)
      (some true) (some false) (by decide)).2.2.2.2.2.2.1,
    rfl⟩

/-- C11: `RefinePrompt(p)` is `RefinePromptWithOptions(p, nil, nil, nil, nil, nil)`
followed by keeping `RefinedPrompt`: it coincides with the specification
`refineSpec`; when the full call returns a response `r` and no error it
returns `r.RefinedPrompt` and no error; when the full call returns an error
`e` it returns the empty string and `e`; the two make the same sleeps and
HTTP attempts; and the full call always returns one of these two shapes. -/
theorem refinePrompt_refines (c : Client) (net : Network) (p : String) :
    c.RefinePrompt net p = c.refineSpec net p
      ∧ (∀ r, (c.RefinePromptWithOptions net p none none none none none).1 = (some r, none) →
          (c.RefinePrompt net p).1 = (r.RefinedPrompt, none))
      ∧ (∀ e, (c.RefinePromptWithOptions net p none none none none none).1.2 = some e →
          (c.RefinePrompt net p).1 = ("", some e))
      ∧ (c.RefinePrompt net p).2 = (c.RefinePromptWithOptions net p none none none none none).2
      ∧ ((∃ r, (c.RefinePromptWithOptions net p none none none none none).1 = (some r, none))
          ∨ (∃ e, (c.RefinePromptWithOptions net p none none none none none).1
              = (none, some e))) := by
  have hshape := result_shape c net p none none none none none
  unfold Client.RefinePrompt Client.refineSpec
  generalize c.RefinePromptWithOptions net p none none none none none = run at hshape ⊢
  obtain ⟨⟨resp, err⟩, t⟩ := run
  refine ⟨?_, ?_, ?_, ?_, hshape⟩
  · rcases hshape with ⟨r, h⟩ | ⟨e, h⟩
    · simp only [Prod.mk.injEq] at h
      obtain ⟨h1, h2⟩ := h
      subst h1 h2
      rfl
    · simp only [Prod.mk.injEq] at h
      obtain ⟨h1, h2⟩ := h
      subst h1 h2
      rfl
  · intro r h
    simp only [Prod.mk.injEq] at h
    obtain ⟨h1, h2⟩ := h
    subst h1 h2
    rfl
  · intro e h
    simp only at h
    subst h
    rfl
  · cases err <;> rfl

/-- C11, instance: against the server of `TestRefinePrompt`, which answers
`Simple: ` followed by the prompt, `RefinePrompt("test prompt")` returns
`Simple: test prompt` and no error. -/
theorem refinePrompt_refines_witness :
    (testClient.RefinePromptWithOptions simpleServer "test prompt"
        none none none none none).1 = (some ⟨"Simple: test prompt", [], []⟩, none)
      ∧ (testClient.RefinePrompt simpleServer "test prompt").1 = ("Simple: test prompt", none) :=
  ⟨rfl, (refinePrompt_refines testClient simpleServer "test prompt").2.1
    ⟨"Simple: test prompt", [], []⟩ rfl⟩

/-- C12: for a non-empty prompt and `MaxRetries ≥ 0`, when the call returns
"max retries exceeded" wrapping `lastErr`, then `MaxRetries + 1` attempts
were made and `lastErr` is the error of the last of them: the transport
error or non-200 status received by attempt index `MaxRetries`, tagged with
the attempt number `MaxRetries + 1`; it is not the error of an earlier
attempt. -/
theorem maxRetries_wraps_last_error (c : Client) (net : Network) (p : String)
    (dom : Option DomainType) (lvl : Option ExpertiseLevel) (fmt : Option OutputFormat)
    (best ex : Option Bool) (lastErr : Option AttemptError) (hp : p ≠ "")
    (hm : 0 ≤ c.RetryConfig.MaxRetries)
    (h : (c.RefinePromptWithOptions net p dom lvl fmt best ex).1.2
      = some (Error.maxRetriesExceeded lastErr)) :
    attempts (c.RefinePromptWithOptions net p dom lvl fmt best ex).2
        = c.RetryConfig.MaxRetries.toNat + 1
      ∧ (c.received net ⟨p, dom, lvl, fmt, best, ex⟩ c.RetryConfig.MaxRetries.toNat).retryable
      ∧ lastErr = some (attemptError
          (c.received net ⟨p, dom, lvl, fmt, best, ex⟩ c.RetryConfig.MaxRetries.toNat)
          (c.RetryConfig.MaxRetries.toNat + 1))
      ∧ ∀ j, j < c.RetryConfig.MaxRetries.toNat →
          lastErr ≠ some (attemptError (c.received net ⟨p, dom, lvl, fmt, best, ex⟩ j) (j + 1)) := by
  rw [run_eq_retryLoop c net p dom lvl fmt best ex hp] at h ⊢
  have hk : (c.RetryConfig.MaxRetries + 1).toNat = c.RetryConfig.MaxRetries.toNat + 1 := by omega
  rw [hk] at h ⊢
  obtain ⟨hat, hall, hle⟩ := retryLoop_exhausted c net _ _ 0 _ none lastErr h
  rw [if_neg (Nat.succ_ne_zero _)] at hle
  simp only [Nat.zero_add, Nat.add_sub_cancel] at hle
  refine ⟨hat, ?_, hle, ?_⟩
  · have := hall c.RetryConfig.MaxRetries.toNat (Nat.lt_succ_self _)
    rwa [Nat.zero_add] at this
  · intro j hj hcon
    rw [hle] at hcon
    have := attemptError_number _ _ _ _ (Option.some.inj hcon)
    omega

/-- C12, instance: with a budget of 3 retries against a network that gives a
timeout, then 503, 301 and 201, the wrapped error is the one of attempt 4
(status 201), not the timeout of attempt 1. -/
theorem maxRetries_wraps_last_error_witness :
    "test prompt" ≠ "" ∧ 0 ≤ testClient.RetryConfig.MaxRetries
      ∧ (testClient.RefinePromptWithOptions flakyServer "test prompt"
            none none none none none).1.2
          = some (Error.maxRetriesExceeded (some (AttemptError.non200 201 4)))
      ∧ attempts (testClient.RefinePromptWithOptions flakyServer "test prompt"
            none none none none none).2 = testClient.RetryConfig.MaxRetries.toNat + 1
      ∧ some (AttemptError.non200 201 4) = some (attemptError
          (testClient.received flakyServer ⟨"test prompt", none, none, none, none, none⟩
            testClient.RetryConfig.MaxRetries.toNat)
          (testClient.RetryConfig.MaxRetries.toNat + 1))
      ∧ some (AttemptError.non200 201 4) ≠ some (attemptError
          (testClient.received flakyServer ⟨"test prompt", none, none, none, none, none⟩ 0)
          (0 + 1)) :=
  ⟨by decide, by decide, rfl,
    (maxRetries_wraps_last_error testClient flakyServer "test prompt" none none none none none
      (some (AttemptError.non200 201 4)) (by decide) (by decide) rfl).1,
    (maxRetries_wraps_last_error testClient flakyServer "test prompt" none none none none none
      (some (AttemptError.non200 201 4)) (by decide) (by decide) rfl).2.2.1,
    (maxRetries_wraps_last_error testClient flakyServer "test prompt" none none none none none
      (some (AttemptError.non200 201 4)) (by decide) (by decide) rfl).2.2.2 0 (by decide)⟩

/-- C13: for a non-empty prompt, when attempt `n` is made (it is within the
budget and every earlier attempt was retried) and ends in a transport error
or in a status that is neither 200 nor in `[400, 500)`, then attempt `n + 1`
is made when `n < MaxRetries`, and when `n = MaxRetries` the call makes no
further attempt and fails with "max retries exceeded" wrapping the error of
attempt `n`. -/
theorem retryable_attempt_continues (c : Client) (net : Network) (p : String)
    (dom : Option DomainType) (lvl : Option ExpertiseLevel) (fmt : Option OutputFormat)
    (best ex : Option Bool) (n : Nat) (hp : p ≠ "")
    (hn : (n : Int) ≤ c.RetryConfig.MaxRetries)
    (hprev : ∀ j, j < n → (c.received net ⟨p, dom, lvl, fmt, best, ex⟩ j).retryable)
    (hret : (∃ cause, c.received net ⟨p, dom, lvl, fmt, best, ex⟩ n = .error cause)
      ∨ (∃ resp, c.received net ⟨p, dom, lvl, fmt, best, ex⟩ n = .response resp
          ∧ resp.StatusCode ≠ 200 ∧ ¬ (resp.StatusCode ≥ 400 ∧ resp.StatusCode < 500))) :
    ((n : Int) < c.RetryConfig.MaxRetries →
        n + 2 ≤ attempts (c.RefinePromptWithOptions net p dom lvl fmt best ex).2)
      ∧ ((n : Int) = c.RetryConfig.MaxRetries →
        (c.RefinePromptWithOptions net p dom lvl fmt best ex).1
            = (none, some (Error.maxRetriesExceeded (some (attemptError
                (c.received net ⟨p, dom, lvl, fmt, best, ex⟩ n) (n + 1)))))
          ∧ attempts (c.RefinePromptWithOptions net p dom lvl fmt best ex).2 = n + 1) := by
  have hretry : (c.received net ⟨p, dom, lvl, fmt, best, ex⟩ n).retryable := by
    rcases hret with ⟨cause, hc⟩ | ⟨resp, hr, h200, h4⟩
    · rw [hc]
      trivial
    · rw [hr]
      exact ⟨h200, h4⟩
  have hall : ∀ j, j < n + 1 →
      (net (0 + j) (c.BaseURL ++ "/refine-prompt") "application/json"
        (PromptRequest.Marshal ⟨p, dom, lvl, fmt, best, ex⟩)).retryable := by
    intro j hj
    rw [Nat.zero_add]
    rcases Nat.lt_or_ge j n with hlt | hge
    · exact hprev j hlt
    · have hjn : j = n := by omega
      rw [hjn]
      exact hretry
  obtain ⟨K, hK⟩ : ∃ K, (c.RetryConfig.MaxRetries + 1).toNat = (n + 1) + K :=
    ⟨(c.RetryConfig.MaxRetries + 1).toNat - (n + 1), by omega⟩
  obtain ⟨es, d1, e1, hes, hat⟩ := retryLoop_skip c net
    (PromptRequest.Marshal ⟨p, dom, lvl, fmt, best, ex⟩) (n + 1) K 0 c.RetryConfig.RetryDelay none
    hall
  rw [run_eq_retryLoop c net p dom lvl fmt best ex hp, hK]
  constructor
  · intro hlt
    obtain ⟨K1, hK1⟩ : ∃ K1, K = K1 + 1 := ⟨K - 1, by omega⟩
    rw [hes, attempts_after, hat, hK1]
    have := attempts_retryLoop_pos c net (PromptRequest.Marshal ⟨p, dom, lvl, fmt, best, ex⟩)
      K1 (0 + (n + 1)) d1 e1
    omega
  · intro heq
    have hK0 : K = 0 := by omega
    subst hK0
    have hres : (retryLoop c net (PromptRequest.Marshal ⟨p, dom, lvl, fmt, best, ex⟩)
        (n + 1 + 0) 0 c.RetryConfig.RetryDelay none).1
          = (none, some (Error.maxRetriesExceeded e1)) := by
      rw [hes]
      rfl
    have hex := retryLoop_exhausted c net (PromptRequest.Marshal ⟨p, dom, lvl, fmt, best, ex⟩)
      (n + 1 + 0) 0 c.RetryConfig.RetryDelay none e1 (by rw [hres])
    obtain ⟨hat2, _, hle⟩ := hex
    rw [if_neg (by omega)] at hle
    simp only [Nat.zero_add, Nat.add_zero, Nat.add_sub_cancel] at hle
    refine ⟨?_, ?_⟩
    · rw [hres, hle]
      rfl
    · rw [hat2]

/-- C13, instance: with a budget of 3 retries against a network that gives a
timeout, then 503, 301 and 201: after the timeout of attempt 0 a further
attempt is made, and after the 201 of attempt 3 the call fails with "max
retries exceeded". -/
theorem retryable_attempt_continues_witness :
    "test prompt" ≠ "" ∧ ((0 : Nat) : Int) < testClient.RetryConfig.MaxRetries
      ∧ testClient.received flakyServer ⟨"test prompt", none, none, none, none, none⟩ 0
          = .error "timeout"
      ∧ 0 + 2 ≤ attempts (testClient.RefinePromptWithOptions flakyServer "test prompt"
          none none none none none).2
      ∧ ((3 : Nat) : Int) = testClient.RetryConfig.MaxRetries
      ∧ (∀ j, j < 3 → (testClient.received flakyServer
            ⟨"test prompt", none, none, none, none, none⟩ j).retryable)
      ∧ testClient.received flakyServer ⟨"test prompt", none, none, none, none, none⟩ 3
          = .response ⟨201, none⟩
      ∧ (testClient.RefinePromptWithOptions flakyServer "test prompt"
            none none none none none).1
          = (none, some (Error.maxRetriesExceeded (some (attemptError
              (testClient.received flakyServer ⟨"test prompt", none, none, none, none, none⟩ 3)
              (3 + 1)))))
      ∧ attempts (testClient.RefinePromptWithOptions flakyServer "test prompt"
            none none none none none).2 = 3 + 1 :=
  have hprev : ∀ j, j < 3 → (testClient.received flakyServer
      ⟨"test prompt", none, none, none, none, none⟩ j).retryable := by
    intro j hj
    interval_cases j
    · trivial
    · exact ⟨by decide, by decide⟩
    · exact ⟨by decide, by decide⟩
  ⟨by decide, by decide, rfl,
    (retryable_attempt_continues testClient flakyServer "test prompt" none none none none none
      0 (by decide) (by decide) (fun _ hj => absurd hj (Nat.not_lt_zero _))
      (Or.inl ⟨"timeout", rfl⟩)).1 (by decide),
    by decide, hprev, rfl,
    (retryable_attempt_continues testClient flakyServer "test prompt" none none none none none
      3 (by decide) (by decide) hprev
      (Or.inr ⟨⟨201, none⟩, rfl, by decide, by decide⟩)).2 (by decide)⟩

/-- C14: for a non-empty prompt and `MaxRetries ≥ 0`, whatever the network
answers, a call makes at least 1 and at most `MaxRetries + 1` HTTP attempts
(the call is a total function: it always returns). -/
theorem attempts_bounded (c : Client) (net : Network) (p : String)
    (dom : Option DomainType) (lvl : Option ExpertiseLevel) (fmt : Option OutputFormat)
    (best ex : Option Bool) (hp : p ≠ "") (hm : 0 ≤ c.RetryConfig.MaxRetries) :
    1 ≤ attempts (c.RefinePromptWithOptions net p dom lvl fmt best ex).2
      ∧ (attempts (c.RefinePromptWithOptions net p dom lvl fmt best ex).2 : Int)
          ≤ c.RetryConfig.MaxRetries + 1 := by
  rw [run_eq_retryLoop c net p dom lvl fmt best ex hp]
  constructor
  · obtain ⟨k, hk⟩ : ∃ k, (c.RetryConfig.MaxRetries + 1).toNat = k + 1 :=
      ⟨(c.RetryConfig.MaxRetries + 1).toNat - 1, by omega⟩
    rw [hk]
    exact attempts_retryLoop_pos c net _ k 0 _ none
  · have := attempts_retryLoop_le c net (PromptRequest.Marshal ⟨p, dom, lvl, fmt, best, ex⟩)
      (c.RetryConfig.MaxRetries + 1).toNat 0 c.RetryConfig.RetryDelay none
    omega

/-- C14, instance: the client with a budget of 2 retries against a server
that always answers 500 makes between 1 and 3 attempts (it makes 3). -/
theorem attempts_bounded_witness :
    "test prompt" ≠ "" ∧ 0 ≤ retryTestClient.RetryConfig.MaxRetries
      ∧ attempts (retryTestClient.RefinePromptWithOptions (alwaysStatus 500) "test prompt"
          none none none none none).2 = 3
      ∧ 1 ≤ attempts (retryTestClient.RefinePromptWithOptions (alwaysStatus 500) "test prompt"
          none none none none none).2
      ∧ (attempts (retryTestClient.RefinePromptWithOptions (alwaysStatus 500) "test prompt"
          none none none none none).2 : Int) ≤ retryTestClient.RetryConfig.MaxRetries + 1 :=
  ⟨by decide, by decide, by decide,
    attempts_bounded retryTestClient (alwaysStatus 500) "test prompt" none none none none none
      (by decide) (by decide)⟩

/-- C15: for a client stored at address `c` and a retry configuration
`config`, `WithRetryConfig(config)` returns the address `c` itself; the
client now stored there has `config` as its retry configuration and the base
URL and HTTP client (with its timeout) it had before; and every other
address of the memory is untouched. -/
theorem withRetryConfig_same_client (h : Heap) (c : Nat) (client : Client)
    (config : RetryConfig) (hc : h c = some client) :
    ∃ h1 client1, Heap.WithRetryConfig h c config = some (h1, c)
      ∧ h1 c = some client1
      ∧ client1 = client.WithRetryConfig config
      ∧ client1.RetryConfig = config
      ∧ client1.BaseURL = client.BaseURL
      ∧ client1.HTTPClient = client.HTTPClient
      ∧ client1.HTTPClient.Timeout = client.HTTPClient.Timeout
      ∧ ∀ a, a ≠ c → h1 a = h a := by
  refine ⟨Function.update h c (some (client.WithRetryConfig config)),
    client.WithRetryConfig config, ?_, ?_, rfl, rfl, rfl, rfl, rfl, ?_⟩
  · unfold Heap.WithRetryConfig
    rw [hc]
  · exact Function.update_same c _ h
  · intro a ha
    exact Function.update_noteq ha _ h

/-- C15, instance: the configuration of `TestRefinePromptMaxRetriesExceeded`
set on the client at address 1: the call returns address 1, the client there
has the new configuration and its old URL and timeout, and the client at
address 2 is as before. -/
theorem withRetryConfig_same_client_witness :
    testHeap 1 = some testClient
      ∧ ∃ h1 client1, Heap.WithRetryConfig testHeap 1 retryTestClient.RetryConfig = some (h1, 1)
        ∧ h1 1 = some client1
        ∧ client1 = testClient.WithRetryConfig retryTestClient.RetryConfig
        ∧ client1.RetryConfig = retryTestClient.RetryConfig
        ∧ client1.BaseURL = testClient.BaseURL
        ∧ client1.HTTPClient = testClient.HTTPClient
        ∧ client1.HTTPClient.Timeout = testClient.HTTPClient.Timeout
        ∧ ∀ a, a ≠ 1 → h1 a = testHeap a :=
  ⟨rfl, withRetryConfig_same_client testHeap 1 testClient retryTestClient.RetryConfig rfl⟩

/-- C16: `NewClient(u, t)` is a client with base URL `u`, HTTP client timeout
`t` and the default retry configuration: `MaxRetries = 3`,
`RetryDelay = 100ms`, `MaxDelay = 2s`, `Multiplier = 2.0`; whatever the
prompt, the options and the network, a call on it makes at most 4 attempts. -/
theorem newClient_defaults (u : String) (t : Duration) :
    (NewClient u t).BaseURL = u
      ∧ (NewClient u t).HTTPClient.Timeout = t
      ∧ (NewClient u t).RetryConfig = DefaultRetryConfig
      ∧ (NewClient u t).RetryConfig.MaxRetries = 3
      ∧ (NewClient u t).RetryConfig.RetryDelay = 100 * Millisecond
      ∧ (NewClient u t).RetryConfig.MaxDelay = 2 * Second
      ∧ (NewClient u t).RetryConfig.Multiplier.toRat = 2
      ∧ ∀ (net : Network) (p : String) (dom : Option DomainType) (lvl : Option ExpertiseLevel)
          (fmt : Option OutputFormat) (best ex : Option Bool),
          attempts ((NewClient u t).RefinePromptWithOptions net p dom lvl fmt best ex).2 ≤ 4 := by
  refine ⟨rfl, rfl, rfl, rfl, rfl, rfl, ?_, ?_⟩
  · norm_num [NewClient, DefaultRetryConfig, Float64.toRat, Float64.ofInt]
  · intro net p dom lvl fmt best ex
    by_cases hp : p = ""
    · subst hp
      simp [Client.RefinePromptWithOptions, attempts]
    · rw [run_eq_retryLoop (NewClient u t) net p dom lvl fmt best ex hp]
      exact attempts_retryLoop_le (NewClient u t) net _ 4 0 _ none

/-- C17: within one call every HTTP attempt is the same post: to the URL
`BaseURL` followed by `/refine-prompt`, with the request marshalled from the
arguments as body.  The posts of the trace are as many copies of that one
post as there are attempts, whatever the network answers. -/
theorem same_request_every_attempt (c : Client) (net : Network) (p : String)
    (dom : Option DomainType) (lvl : Option ExpertiseLevel) (fmt : Option OutputFormat)
    (best ex : Option Bool) :
    posts (c.RefinePromptWithOptions net p dom lvl fmt best ex).2
      = List.replicate (attempts (c.RefinePromptWithOptions net p dom lvl fmt best ex).2)
          (Event.post (c.BaseURL ++ "/refine-prompt") "application/json"
            (PromptRequest.Marshal ⟨p, dom, lvl, fmt, best, ex⟩)) := by
  rw [List.eq_replicate_iff]
  refine ⟨rfl, ?_⟩
  intro ev hev
  unfold posts at hev
  rw [List.mem_filter] at hev
  obtain ⟨hmem, hpost⟩ := hev
  by_cases hp : p = ""
  · subst hp
    simp [Client.RefinePromptWithOptions] at hmem
  · rw [run_eq_retryLoop c net p dom lvl fmt best ex hp] at hmem
    exact posts_retryLoop c net _ _ 0 _ none ev hmem hpost

/-- C17, instance: the three attempts of the client with a budget of 2
retries against a server that always answers 500 are three copies of one
post. -/
theorem same_request_every_attempt_witness :
    attempts (retryTestClient.RefinePromptWithOptions (alwaysStatus 500) "test prompt"
        none none none none none).2 = 3
      ∧ posts (retryTestClient.RefinePromptWithOptions (alwaysStatus 500) "test prompt"
          none none none none none).2
        = List.replicate (attempts (retryTestClient.RefinePromptWithOptions (alwaysStatus 500)
            "test prompt" none none none none none).2)
          (Event.post (retryTestClient.BaseURL ++ "/refine-prompt") "application/json"
            (PromptRequest.Marshal ⟨"test prompt", none, none, none, none, none⟩))
      ∧ retryTestClient.BaseURL ++ "/refine-prompt" = "http://127.0.0.1:8080/refine-prompt"
      ∧ PromptRequest.Marshal ⟨"test prompt", none, none, none, none, none⟩
          = JSON.obj [("lazy_prompt", JSON.str "test prompt")] :=
  ⟨by decide,
    same_request_every_attempt retryTestClient (alwaysStatus 500) "test prompt"
      none none none none none,
    by decide, rfl⟩

/-- C18: for a non-empty prompt and `MaxRetries < 0` the call makes no HTTP
attempt, sleeps for no delay, and returns no response and a "max retries
exceeded" error that wraps no error (`lastErr` is still nil). -/
theorem negative_budget_no_attempt (c : Client) (net : Network) (p : String)
    (dom : Option DomainType) (lvl : Option ExpertiseLevel) (fmt : Option OutputFormat)
    (best ex : Option Bool) (hp : p ≠ "") (hneg : c.RetryConfig.MaxRetries < 0) :
    (c.RefinePromptWithOptions net p dom lvl fmt best ex).1
        = (none, some (Error.maxRetriesExceeded none))
      ∧ (c.RefinePromptWithOptions net p dom lvl fmt best ex).2 = []
      ∧ attempts (c.RefinePromptWithOptions net p dom lvl fmt best ex).2 = 0 := by
  rw [run_eq_retryLoop c net p dom lvl fmt best ex hp]
  have hk : (c.RetryConfig.MaxRetries + 1).toNat = 0 := by omega
  rw [hk]
  exact ⟨rfl, rfl, rfl⟩

/-- C18, instance: a client with `MaxRetries = -1`. -/
theorem negative_budget_no_attempt_witness :
    "test prompt" ≠ "" ∧ noBudgetClient.RetryConfig.MaxRetries < 0
      ∧ (noBudgetClient.RefinePromptWithOptions (alwaysStatus 200) "test prompt"
            none none none none none).1 = (none, some (Error.maxRetriesExceeded none))
      ∧ (noBudgetClient.RefinePromptWithOptions (alwaysStatus 200) "test prompt"
            none none none none none).2 = []
      ∧ attempts (noBudgetClient.RefinePromptWithOptions (alwaysStatus 200) "test prompt"
            none none none none none).2 = 0 :=
  ⟨by decide, by decide,
    negative_budget_no_attempt noBudgetClient (alwaysStatus 200) "test prompt"
      none none none none none (by decide) (by decide)⟩

/-- C19 (as stated, refuted).  The prompt made of the single byte `0xFF` is
not empty and passes validation, and the client posts it, but the value of
`lazy_prompt` in the body is the replacement character U+FFFD, which as a Go
string differs from the prompt: it is not sent unchanged. -/
theorem invalid_utf8_prompt_replaced :
    ([GoRune.invalid 255] : GoString) ≠ []
      ∧ 0 ≤ testClient.RetryConfig.MaxRetries
      ∧ (testClient.RefinePromptWithOptionsBytes simpleServer [GoRune.invalid 255]
            none none none none none).1.2 ≠ some Error.emptyPrompt
      ∧ (testClient.RefinePromptWithOptionsBytes simpleServer [GoRune.invalid 255]
            none none none none none).2.head?
          = some (Event.post (testClient.BaseURL ++ "/refine-prompt") "application/json"
              (JSON.obj [("lazy_prompt", JSON.str (String.mk [RuneError]))]))
      ∧ (JSON.obj [("lazy_prompt", JSON.str (String.mk [RuneError]))]).field "lazy_prompt"
          = some (JSON.str (String.mk [RuneError]))
      ∧ GoString.ofString (String.mk [RuneError]) ≠ [GoRune.invalid 255] :=
  ⟨by decide, by decide, by decide, rfl, rfl, by decide⟩

/-- C19 (amended): the call returns the "lazy prompt cannot be empty" error
exactly when the prompt is the empty string.  Any other prompt, whitespace
included, passes validation; the value of `lazy_prompt` in the body of every
post is the prompt with U+FFFD in place of each byte that is not valid UTF-8;
with `MaxRetries ≥ 0` at least one HTTP attempt is made, the trace starting
with such a post; and for a prompt that is valid UTF-8 that value is the
prompt itself, untrimmed and unchanged. -/
theorem validation_only_empty (c : Client) (net : Network) (p : GoString)
    (dom lvl fmt : Option GoString) (best ex : Option Bool) :
    ((c.RefinePromptWithOptionsBytes net p dom lvl fmt best ex).1.2 = some Error.emptyPrompt
        ↔ p = [])
      ∧ (p ≠ [] →
          (∀ ev, ev ∈ posts (c.RefinePromptWithOptionsBytes net p dom lvl fmt best ex).2 →
            ∃ url contentType body, ev = Event.post url contentType body
              ∧ body.field "lazy_prompt" = some (JSON.str p.toJSONText))
          ∧ (0 ≤ c.RetryConfig.MaxRetries →
              1 ≤ attempts (c.RefinePromptWithOptionsBytes net p dom lvl fmt best ex).2
              ∧ ∃ url contentType body,
                  (c.RefinePromptWithOptionsBytes net p dom lvl fmt best ex).2.head?
                    = some (Event.post url contentType body)
                  ∧ body.field "lazy_prompt" = some (JSON.str p.toJSONText)))
      ∧ (∀ s : String, p = GoString.ofString s → p.toJSONText = s) := by
  have hfield : (GoPromptRequest.Marshal ⟨p, dom, lvl, fmt, best, ex⟩).field "lazy_prompt"
      = some (JSON.str p.toJSONText) := (marshal_fields _).1
  refine ⟨⟨?_, ?_⟩, ?_, ?_⟩
  · intro h
    by_contra hp
    rw [runBytes_eq_retryLoop c net p dom lvl fmt best ex hp] at h
    rcases retryLoop_shape c net (GoPromptRequest.Marshal ⟨p, dom, lvl, fmt, best, ex⟩)
      (c.RetryConfig.MaxRetries + 1).toNat 0 c.RetryConfig.RetryDelay none
      with ⟨r, hr⟩ | ⟨cause, hr⟩ | ⟨s, hr⟩ | ⟨le, hr⟩ <;>
    · rw [hr] at h
      simp at h
  · intro hp
    subst hp
    simp [Client.RefinePromptWithOptionsBytes]
  · intro hp
    rw [runBytes_eq_retryLoop c net p dom lvl fmt best ex hp]
    refine ⟨?_, ?_⟩
    · intro ev hev
      unfold posts at hev
      rw [List.mem_filter] at hev
      obtain ⟨hmem, hpost⟩ := hev
      exact ⟨_, _, _, posts_retryLoop c net _ _ 0 _ none ev hmem hpost, hfield⟩
    · intro hm
      obtain ⟨k, hk⟩ : ∃ k, (c.RetryConfig.MaxRetries + 1).toNat = k + 1 :=
        ⟨(c.RetryConfig.MaxRetries + 1).toNat - 1, by omega⟩
      rw [hk]
      exact ⟨attempts_retryLoop_pos c net _ k 0 _ none, _, _, _,
        retryLoop_head c net _ k _ none, hfield⟩
  · intro s hs
    rw [hs]
    exact toJSONText_ofString s

/-- C19 (amended), instance: a prompt of three spaces is not rejected; it is
posted as it is, and the server is reached. -/
theorem validation_only_empty_witness :
    GoString.ofString "   " ≠ [] ∧ 0 ≤ testClient.RetryConfig.MaxRetries
      ∧ (GoString.ofString "   ").toJSONText = "   "
      ∧ (testClient.RefinePromptWithOptionsBytes simpleServer (GoString.ofString "   ")
            none none none none none).1.2 ≠ some Error.emptyPrompt
      ∧ 1 ≤ attempts (testClient.RefinePromptWithOptionsBytes simpleServer
          (GoString.ofString "   ") none none none none none).2
      ∧ ∃ url contentType body,
          (testClient.RefinePromptWithOptionsBytes simpleServer (GoString.ofString "   ")
            none none none none none).2.head? = some (Event.post url contentType body)
          ∧ body.field "lazy_prompt" = some (JSON.str (GoString.ofString "   ").toJSONText) :=
  ⟨by decide, by decide,
    (validation_only_empty testClient simpleServer (GoString.ofString "   ")
      none none none none none).2.2 "   " rfl,
    by decide,
    ((validation_only_empty testClient simpleServer (GoString.ofString "   ")
      none none none none none).2.1 (by decide)).2 (by decide)⟩

end SmartPrompt
